import Mathlib

/-!
# Verification of the cursor-time session/aggregation engine

Shallow embedding of the activity-classification and session-aggregation
core of the cursor-time extension:

* the batch segmentation algorithm `computeSessionsFromHeartbeats`
  (src/storage/index.ts),
* the incremental live store `TodaySessionStore`
  (src/storage/todayStore.ts: `processHeartbeat`, `flushActivityTime`,
  `finalizeActiveSession`, `getSummary`, `pushHeartbeat`),
* the daily cache / aggregate cache layer (`getDaySessions`,
  `updateAggregateCachesForDate`, `updateAggregateWithDelta`,
  `upsertAggregateCache`, `getAggregateTotalMs`) together with the civil
  calendar arithmetic it relies on (`getStartOfWeek`, `addDays`),
* the WakaTime import merge loop of `sessionsPanel.ts`.

Timestamps are milliseconds since the epoch, embedded as `Int` (JavaScript
numbers hold these values exactly; all arithmetic used by the source is
integer arithmetic on them).
-/

/-- `SESSION_GAP_THRESHOLD_MS = 20 * 60 * 1000` from src/utils/time.ts. -/
def SESSION_GAP_THRESHOLD_MS : Int := 20 * 60 * 1000

/-- `PLANNING_STREAK_THRESHOLD = 5` from src/utils/time.ts. -/
def PLANNING_STREAK_THRESHOLD : Nat := 5

/-- A heartbeat row as read by the segmentation code
(`SELECT id, timestamp, project, activity_type`).  `planning` is the value
of `activity_type === 'planning'`; `project` is `NULL`-able.  The empty
string is kept distinct from `none` because JavaScript treats `''` as
falsy in `if (row.project)`. -/
structure HB where
  id : String
  timestamp : Int
  project : Option String
  planning : Bool
deriving Repr, DecidableEq

/-- `ActivitySegment` from src/storage/index.ts (`type` is the
`'planning' | 'coding'` tag, embedded as the Bool `planning`). -/
structure ActivitySegment where
  start : Int
  «end» : Int
  planning : Bool
deriving Repr, DecidableEq

/-- `Session` from src/storage/index.ts.  `projects` is
`Array.from(set)`, i.e. the insertion-ordered list of distinct truthy
project names. -/
structure Session where
  start : Int
  «end» : Int
  durationMs : Int
  heartbeats : Nat
  projects : List String
  codingMs : Int
  planningMs : Int
  activitySegments : List ActivitySegment
deriving Repr, DecidableEq

/-- The per-session working state of `computeSessionsFromHeartbeats`
(the `currentSession` record literal). -/
structure CurrentSession where
  start : Int
  «end» : Int
  heartbeats : Nat
  projects : List String
  codingMs : Int
  planningMs : Int
  lastTimestamp : Int
  currentActivityStart : Int
  planningStreak : Nat
  activitySegments : List ActivitySegment
deriving Repr, DecidableEq

/-- JavaScript truthiness of the nullable `project` column:
`if (row.project)` is false for `NULL` and for `''`. -/
def projTruthy : Option String → Bool
  | none => false
  | some s => !(s = "")

/-- `new Set(row.project ? [row.project] : [])` rendered as a list. -/
def initialProjects (p : Option String) : List String :=
  match p with
  | none => []
  | some s => if s = "" then [] else [s]

/-- `session.projects.add(row.project)` guarded by `if (row.project)`:
JavaScript `Set.add` keeps insertion order and ignores duplicates. -/
def addProject (ps : List String) (p : Option String) : List String :=
  match p with
  | none => ps
  | some s => if s = "" then ps else if s ∈ ps then ps else ps ++ [s]

/-- The `currentSession` initializer used for the first heartbeat of each
session in `computeSessionsFromHeartbeats`. -/
def initCurrentSession (row : HB) : CurrentSession :=
  { start := row.timestamp
    «end» := row.timestamp
    heartbeats := 1
    projects := initialProjects row.project
    codingMs := 0
    planningMs := 0
    lastTimestamp := row.timestamp
    currentActivityStart := row.timestamp
    planningStreak := if row.planning then 1 else 0
    activitySegments := [] }

/-- `flushCurrentActivity` from `computeSessionsFromHeartbeats`
(src/storage/index.ts): attribute the elapsed run `[currentActivityStart,
toTimestamp]` to planning only when the run was planning and the streak
reached `PLANNING_STREAK_THRESHOLD`, and append the resolved segment. -/
def flushCurrentActivity (s : CurrentSession) (toTimestamp : Int)
    (isPlanningActivity : Bool) : CurrentSession :=
  if s.currentActivityStart < toTimestamp then
    let duration := toTimestamp - s.currentActivityStart
    let isTruePlanning := isPlanningActivity &&
      decide (PLANNING_STREAK_THRESHOLD ≤ s.planningStreak)
    { s with
      codingMs := if isTruePlanning then s.codingMs else s.codingMs + duration
      planningMs := if isTruePlanning then s.planningMs + duration else s.planningMs
      activitySegments := s.activitySegments ++
        [{ start := s.currentActivityStart, «end» := toTimestamp,
           planning := isTruePlanning }] }
  else s

/-- The `sessions.push({...})` literal closing a `currentSession` (shared
by the gap branch and the end-of-input flush). -/
def closedSession (c : CurrentSession) : Session :=
  { start := c.start
    «end» := c.«end»
    durationMs := c.«end» - c.start
    heartbeats := c.heartbeats
    projects := c.projects
    codingMs := c.codingMs
    planningMs := c.planningMs
    activitySegments := c.activitySegments }

/-- One iteration of the `for (let i = 1; i < rows.length; i++)` loop of
`computeSessionsFromHeartbeats`, acting on the accumulated closed sessions
and the in-progress `currentSession`. -/
def sessionStep (acc : List Session × CurrentSession) (row : HB) :
    List Session × CurrentSession :=
  let c := acc.2
  let gap := row.timestamp - c.«end»
  let currentIsPlanning := row.planning
  let lastWasPlanning := decide (0 < c.planningStreak)
  if SESSION_GAP_THRESHOLD_MS < gap then
    let c := flushCurrentActivity c c.«end» lastWasPlanning
    (acc.1 ++ [closedSession c], initCurrentSession row)
  else
    let c :=
      if currentIsPlanning ≠ lastWasPlanning then
        let c := flushCurrentActivity c row.timestamp lastWasPlanning
        { c with currentActivityStart := row.timestamp
                 planningStreak := if currentIsPlanning then 1 else 0 }
      else if currentIsPlanning then
        { c with planningStreak := c.planningStreak + 1 }
      else c
    (acc.1,
      { c with «end» := row.timestamp
               lastTimestamp := row.timestamp
               heartbeats := c.heartbeats + 1
               projects := addProject c.projects row.project })

/-- `computeSessionsFromHeartbeats` (src/storage/index.ts): the batch
segmentation algorithm mapping one day's time-ordered heartbeat rows to
its list of sessions. -/
def computeSessionsFromHeartbeats : List HB → List Session
  | [] => []
  | row0 :: rest =>
    let st := rest.foldl sessionStep ([], initCurrentSession row0)
    let c := flushCurrentActivity st.2 st.2.«end» (decide (0 < st.2.planningStreak))
    st.1 ++ [closedSession c]

example :
    computeSessionsFromHeartbeats
      [⟨"a", 0, none, false⟩, ⟨"b", 1000, none, false⟩,
       ⟨"c", 1000 + SESSION_GAP_THRESHOLD_MS + 1, none, false⟩] =
    [{ start := 0, «end» := 1000, durationMs := 1000, heartbeats := 2,
       projects := [], codingMs := 1000, planningMs := 0,
       activitySegments := [⟨0, 1000, false⟩] },
     { start := 1000 + SESSION_GAP_THRESHOLD_MS + 1,
       «end» := 1000 + SESSION_GAP_THRESHOLD_MS + 1, durationMs := 0,
       heartbeats := 1, projects := [], codingMs := 0, planningMs := 0,
       activitySegments := [] }] := by decide

/-! ## Live session store (src/storage/todayStore.ts) -/

/-- A calendar date key, embedding the `'YYYY-MM-DD'` strings the source
uses (`getTodayDateKey`, `getDateKeyFromDate`, SQL `date_key` columns).
All keys the program produces are zero-padded with four-digit years, on
which lexicographic string comparison (SQL `BETWEEN`, `<`) coincides with
lexicographic comparison of the `(year, month, day)` triples, which is how
order on `DKey` is defined below. -/
structure DKey where
  y : Int
  m : Int
  d : Int
deriving Repr, DecidableEq

/-- Lexicographic order on date keys: the embedding of string comparison
of well-formed `'YYYY-MM-DD'` keys. -/
def DKey.le (a b : DKey) : Prop :=
  a.y < b.y ∨ (a.y = b.y ∧ (a.m < b.m ∨ (a.m = b.m ∧ a.d ≤ b.d)))

instance : DecidablePred fun p : DKey × DKey => DKey.le p.1 p.2 := by
  intro p; unfold DKey.le; infer_instance

instance (a b : DKey) : Decidable (DKey.le a b) := by
  unfold DKey.le; infer_instance

/-- The `ActiveSession` interface of src/storage/todayStore.ts (the open
session's working state; unlike the batch `currentSession` it has no
`lastTimestamp` field — the store tracks `lastHeartbeatTimestamp`
separately). -/
structure ActiveSession where
  start : Int
  «end» : Int
  projects : List String
  codingMs : Int
  planningMs : Int
  heartbeats : Nat
  currentActivityStart : Int
  planningStreak : Nat
  activitySegments : List ActivitySegment
deriving Repr, DecidableEq

/-- The `TodayState` record of `TodaySessionStore`. -/
structure TodayState where
  dateKey : DKey
  sessions : List Session
  activeSession : Option ActiveSession
  lastHeartbeatTimestamp : Int
deriving Repr, DecidableEq

/-- The constructor state of `TodaySessionStore` (also the reset state
installed by `ensureCurrentDate` on date rollover), for tracked date
`today`. -/
def initialTodayState (today : DKey) : TodayState :=
  { dateKey := today, sessions := [], activeSession := none,
    lastHeartbeatTimestamp := 0 }

/-- `ensureCurrentDate`: reset the store when the wall-clock date moved
past the tracked date; returns whether a reset happened, as the source
does. -/
def ensureCurrentDate (today : DKey) (st : TodayState) : Bool × TodayState :=
  if st.dateKey ≠ today then (true, initialTodayState today) else (false, st)

/-- `flushActivityTime` of `TodaySessionStore` (same hysteresis rule as
the batch `flushCurrentActivity`, acting on the open session). -/
def flushActivityTime (s : ActiveSession) (toTimestamp : Int)
    (isPlanningActivity : Bool) : ActiveSession :=
  if s.currentActivityStart < toTimestamp then
    let duration := toTimestamp - s.currentActivityStart
    let isTruePlanning := isPlanningActivity &&
      decide (PLANNING_STREAK_THRESHOLD ≤ s.planningStreak)
    { s with
      codingMs := if isTruePlanning then s.codingMs else s.codingMs + duration
      planningMs := if isTruePlanning then s.planningMs + duration else s.planningMs
      activitySegments := s.activitySegments ++
        [{ start := s.currentActivityStart, «end» := toTimestamp,
           planning := isTruePlanning }] }
  else s

/-- The `Session` literal pushed by `finalizeActiveSession`. -/
def activeToSession (s : ActiveSession) : Session :=
  { start := s.start
    «end» := s.«end»
    durationMs := s.«end» - s.start
    heartbeats := s.heartbeats
    projects := s.projects
    codingMs := s.codingMs
    planningMs := s.planningMs
    activitySegments := s.activitySegments }

/-- `finalizeActiveSession`: flush the open session at its current `end`
and move it to the closed list. -/
def finalizeActiveSession (st : TodayState) : TodayState :=
  match st.activeSession with
  | none => st
  | some session =>
    let lastWasPlanning := decide (0 < session.planningStreak)
    let session := flushActivityTime session session.«end» lastWasPlanning
    { st with sessions := st.sessions ++ [activeToSession session],
              activeSession := none }

/-- `processHeartbeat` of `TodaySessionStore`: the incremental
per-heartbeat transition.  Note the `lastHeartbeatTimestamp > 0` sentinel
guarding the gap computation. -/
def processHeartbeat (st : TodayState) (timestamp : Int)
    (project : Option String) (isPlanning : Bool) : TodayState :=
  let gap : Int :=
    if 0 < st.lastHeartbeatTimestamp then timestamp - st.lastHeartbeatTimestamp
    else 0
  let st' :=
    if st.activeSession = none ∨ SESSION_GAP_THRESHOLD_MS < gap then
      let st := if st.activeSession = none then st else finalizeActiveSession st
      let fresh : ActiveSession :=
        { start := timestamp
          «end» := timestamp
          projects := initialProjects project
          codingMs := 0
          planningMs := 0
          heartbeats := 1
          currentActivityStart := timestamp
          planningStreak := if isPlanning then 1 else 0
          activitySegments := [] }
      { st with activeSession := some fresh }
    else
      match st.activeSession with
      | none => st
      | some session =>
        let lastWasPlanning := decide (0 < session.planningStreak)
        let session :=
          if isPlanning ≠ lastWasPlanning then
            let session := flushActivityTime session timestamp lastWasPlanning
            { session with currentActivityStart := timestamp
                           planningStreak := if isPlanning then 1 else 0 }
          else if isPlanning then
            { session with planningStreak := session.planningStreak + 1 }
          else session
        let upd : ActiveSession :=
          { session with «end» := timestamp
                         heartbeats := session.heartbeats + 1
                         projects := addProject session.projects project }
        { st with activeSession := some upd }
  { st' with lastHeartbeatTimestamp := timestamp }

/-- `pushHeartbeat`: date-rollover guard then the incremental step. -/
def pushHeartbeat (today : DKey) (st : TodayState) (hb : HB) : TodayState :=
  processHeartbeat (ensureCurrentDate today st).2 hb.timestamp hb.project hb.planning

/-- `DaySessionSummary` from src/storage/index.ts. -/
structure DaySessionSummary where
  dateKey : DKey
  sessionCount : Nat
  totalTimeMs : Int
  sessions : List Session
  totalCodingMs : Int
  totalPlanningMs : Int
deriving Repr, DecidableEq

/-- The materialized snapshot `getSummary` builds for the open session:
the inline flush-at-`end` copy in src/storage/todayStore.ts lines
193–225 (it works on copies and does not touch the stored state). -/
def materializeActiveSession (session : ActiveSession) : Session :=
  let lastWasPlanning := decide (0 < session.planningStreak)
  if session.currentActivityStart < session.«end» then
    let duration := session.«end» - session.currentActivityStart
    let isTruePlanning := lastWasPlanning &&
      decide (PLANNING_STREAK_THRESHOLD ≤ session.planningStreak)
    { start := session.start
      «end» := session.«end»
      durationMs := session.«end» - session.start
      heartbeats := session.heartbeats
      projects := session.projects
      codingMs := if isTruePlanning then session.codingMs
                  else session.codingMs + duration
      planningMs := if isTruePlanning then session.planningMs + duration
                    else session.planningMs
      activitySegments := session.activitySegments ++
        [{ start := session.currentActivityStart, «end» := session.«end»,
           planning := isTruePlanning }] }
  else
    { start := session.start
      «end» := session.«end»
      durationMs := session.«end» - session.start
      heartbeats := session.heartbeats
      projects := session.projects
      codingMs := session.codingMs
      planningMs := session.planningMs
      activitySegments := session.activitySegments }

/-- The summary `getSummary` returns after a date rollover (all-zero
summary for the fresh date). -/
def emptySummary (dateKey : DKey) : DaySessionSummary :=
  { dateKey := dateKey, sessionCount := 0, totalTimeMs := 0, sessions := [],
    totalCodingMs := 0, totalPlanningMs := 0 }

/-- `getSummary` of `TodaySessionStore`: rollover guard, then closed
sessions plus the materialized snapshot of the open session; totals are
reduced over the combined list (`totalTimeMs` sums `durationMs`).  The
returned pair makes the state effect explicit: the first component is the
store state after the call. -/
def getSummary (today : DKey) (st : TodayState) : TodayState × DaySessionSummary :=
  let r := ensureCurrentDate today st
  if r.1 then (r.2, emptySummary r.2.dateKey)
  else
    let st := r.2
    let allSessions := st.sessions ++
      (match st.activeSession with
       | none => []
       | some session => [materializeActiveSession session])
    (st,
      { dateKey := st.dateKey
        sessionCount := allSessions.length
        totalTimeMs := (allSessions.map Session.durationMs).sum
        sessions := allSessions
        totalCodingMs := (allSessions.map Session.codingMs).sum
        totalPlanningMs := (allSessions.map Session.planningMs).sum })

/-- Batch-side totals as computed by the daily-cache path
(`getDaySessions`): coding and planning totals are reduced over the
session list and `totalTimeMs` is their sum. -/
def batchTotals (sessions : List Session) : Int × Int × Int :=
  let totalCodingMs := (sessions.map Session.codingMs).sum
  let totalPlanningMs := (sessions.map Session.planningMs).sum
  (totalCodingMs, totalPlanningMs, totalCodingMs + totalPlanningMs)

/-- Feeding a list of heartbeats one at a time into `pushHeartbeat`. -/
def pushAll (today : DKey) (st : TodayState) (rows : List HB) : TodayState :=
  rows.foldl (pushHeartbeat today) st

/-! ## C4: gap threshold boundary -/

/-- **C4.** In the segmentation algorithm two consecutive heartbeats whose
timestamp difference is exactly `SESSION_GAP_THRESHOLD_MS` stay in the
same session (the step closes no session), while a difference of
`SESSION_GAP_THRESHOLD_MS + 1` closes the current session and opens a new
one; in particular a two-heartbeat input yields one session at the
threshold and two sessions one millisecond past it. -/
theorem gap_threshold_boundary (acc : List Session) (c : CurrentSession)
    (row : HB) (h1 h2 : HB) :
    (row.timestamp - c.«end» = SESSION_GAP_THRESHOLD_MS →
      (sessionStep (acc, c) row).1 = acc) ∧
    (row.timestamp - c.«end» = SESSION_GAP_THRESHOLD_MS + 1 →
      (sessionStep (acc, c) row).1 = acc ++ [closedSession
        (flushCurrentActivity c c.«end» (decide (0 < c.planningStreak)))]) ∧
    (h2.timestamp - h1.timestamp = SESSION_GAP_THRESHOLD_MS →
      (computeSessionsFromHeartbeats [h1, h2]).length = 1) ∧
    (h2.timestamp - h1.timestamp = SESSION_GAP_THRESHOLD_MS + 1 →
      (computeSessionsFromHeartbeats [h1, h2]).length = 2) := by
  refine ⟨?_, ?_, ?_, ?_⟩
  · intro h
    simp only [sessionStep]
    rw [if_neg (by omega)]
  · intro h
    simp only [sessionStep]
    rw [if_pos (by omega)]
  · intro h
    simp only [computeSessionsFromHeartbeats, List.foldl, sessionStep,
      initCurrentSession]
    rw [if_neg (by omega)]
    simp
  · intro h
    simp only [computeSessionsFromHeartbeats, List.foldl, sessionStep,
      initCurrentSession]
    rw [if_pos (by omega)]
    simp

/-- Witness for `gap_threshold_boundary` at concrete inputs. -/
theorem gap_threshold_boundary_witness :
    (computeSessionsFromHeartbeats
      [⟨"a", 100, none, false⟩, ⟨"b", 100 + SESSION_GAP_THRESHOLD_MS, none, false⟩]).length = 1 ∧
    (computeSessionsFromHeartbeats
      [⟨"a", 100, none, false⟩, ⟨"b", 101 + SESSION_GAP_THRESHOLD_MS, none, false⟩]).length = 2 := by
  refine ⟨?_, ?_⟩
  · exact (gap_threshold_boundary [] (initCurrentSession ⟨"a", 100, none, false⟩)
      ⟨"b", 100, none, false⟩ ⟨"a", 100, none, false⟩
      ⟨"b", 100 + SESSION_GAP_THRESHOLD_MS, none, false⟩).2.2.1 (by decide)
  · exact (gap_threshold_boundary [] (initCurrentSession ⟨"a", 100, none, false⟩)
      ⟨"b", 100, none, false⟩ ⟨"a", 100, none, false⟩
      ⟨"b", 101 + SESSION_GAP_THRESHOLD_MS, none, false⟩).2.2.2 (by decide)

/-! ## C3: hysteresis boundary -/

/-- Strictly increasing timestamps with every consecutive gap within the
session threshold, starting from time `t`. -/
def stepOk : Int → List HB → Bool
  | _, [] => true
  | t, hb :: rest =>
    decide (t < hb.timestamp) &&
    decide (hb.timestamp - t ≤ SESSION_GAP_THRESHOLD_MS) &&
    stepOk hb.timestamp rest

/-- Last timestamp of a heartbeat run, defaulting to `t`. -/
def lastTS (t : Int) : List HB → Int
  | [] => t
  | hb :: rest => lastTS hb.timestamp rest

theorem lastTS_mono (t : Int) (ps : List HB) (h : stepOk t ps = true) :
    t ≤ lastTS t ps := by
  induction ps generalizing t with
  | nil => simp [lastTS]
  | cons hb rest ih =>
    simp only [stepOk, Bool.and_eq_true, decide_eq_true_eq] at h
    have := ih hb.timestamp h.2
    simp only [lastTS]
    omega

theorem stepOk_append_left (t : Int) (ps : List HB) (f : HB)
    (h : stepOk t (ps ++ [f]) = true) : stepOk t ps = true := by
  induction ps generalizing t with
  | nil => simp [stepOk]
  | cons x xs ih =>
    simp only [List.cons_append, stepOk, Bool.and_eq_true] at h ⊢
    exact ⟨h.1, ih _ h.2⟩

theorem stepOk_last (t : Int) (ps : List HB) (f : HB)
    (h : stepOk t (ps ++ [f]) = true) :
    lastTS t ps < f.timestamp ∧
    f.timestamp - lastTS t ps ≤ SESSION_GAP_THRESHOLD_MS := by
  induction ps generalizing t with
  | nil =>
    simp only [List.nil_append, stepOk, lastTS, Bool.and_eq_true,
      decide_eq_true_eq] at h ⊢
    exact ⟨h.1.1, h.1.2⟩
  | cons x xs ih =>
    simp only [List.cons_append, stepOk, Bool.and_eq_true] at h
    exact ih _ h.2

/-- Extending an ongoing planning run: while the planning classification
is in effect (`planningStreak > 0`), each further planning heartbeat
within the gap threshold merely extends the open session and increments
the streak — nothing is flushed. -/
theorem planning_run_extend (acc : List Session) (c : CurrentSession)
    (ps : List HB) (hpl : ∀ hb ∈ ps, hb.planning = true)
    (hstreak : 0 < c.planningStreak) (hok : stepOk c.«end» ps = true) :
    List.foldl sessionStep (acc, c) ps =
      (acc,
        { c with
          «end» := lastTS c.«end» ps
          lastTimestamp := lastTS c.lastTimestamp ps
          planningStreak := c.planningStreak + ps.length
          heartbeats := c.heartbeats + ps.length
          projects := ps.foldl (fun l hb => addProject l hb.project) c.projects }) := by
  induction ps generalizing c with
  | nil =>
    simp [lastTS]
  | cons hb rest ih =>
    simp only [stepOk, Bool.and_eq_true, decide_eq_true_eq] at hok
    obtain ⟨⟨hgt, hle⟩, hok⟩ := hok
    have hhb : hb.planning = true := hpl hb (by simp)
    simp only [List.foldl_cons]
    have hstep : sessionStep (acc, c) hb =
        (acc, { c with «end» := hb.timestamp
                       lastTimestamp := hb.timestamp
                       planningStreak := c.planningStreak + 1
                       heartbeats := c.heartbeats + 1
                       projects := addProject c.projects hb.project }) := by
      simp only [sessionStep]
      rw [if_neg (show ¬ SESSION_GAP_THRESHOLD_MS < hb.timestamp - c.«end» by omega)]
      rw [if_neg (show ¬ hb.planning ≠ decide (0 < c.planningStreak) by
        simp [hhb, hstreak])]
      rw [if_pos hhb]
    rw [hstep]
    rw [ih { c with «end» := hb.timestamp
                    lastTimestamp := hb.timestamp
                    planningStreak := c.planningStreak + 1
                    heartbeats := c.heartbeats + 1
                    projects := addProject c.projects hb.project }
      (fun x hx => hpl x (by simp [hx])) (by simp) (by simpa using hok)]
    simp only [lastTS, List.length_cons, List.foldl_cons, Prod.mk.injEq,
      CurrentSession.mk.injEq, true_and, and_true]
    omega

/-- **C3.** Hysteresis boundary inside one session: from any in-session
state whose current run is coding (`planningStreak = 0`), feed a run of
consecutive planning heartbeats immediately followed by a coding
heartbeat, all gaps within the session threshold.  With exactly
`PLANNING_STREAK_THRESHOLD - 1` planning heartbeats the whole flushed
duration is attributed to coding and no planning segment is emitted; with
exactly `PLANNING_STREAK_THRESHOLD` planning heartbeats the whole flushed
run duration — including the time before the streak count reached the
threshold — is attributed to planning. -/
theorem hysteresis_boundary (acc : List Session) (c : CurrentSession)
    (ps : List HB) (p f : HB)
    (hc : c.planningStreak = 0) (hcas : c.currentActivityStart ≤ c.«end»)
    (hpl : ∀ hb ∈ ps, hb.planning = true) (hf : f.planning = false)
    (hhead : ps.head? = some p)
    (hok : stepOk c.«end» (ps ++ [f]) = true) :
    (ps.length = PLANNING_STREAK_THRESHOLD - 1 →
      (List.foldl sessionStep (acc, c) (ps ++ [f])).1 = acc ∧
      (List.foldl sessionStep (acc, c) (ps ++ [f])).2.planningMs = c.planningMs ∧
      (List.foldl sessionStep (acc, c) (ps ++ [f])).2.codingMs =
        c.codingMs + (f.timestamp - c.currentActivityStart) ∧
      (List.foldl sessionStep (acc, c) (ps ++ [f])).2.activitySegments =
        c.activitySegments ++
          [⟨c.currentActivityStart, p.timestamp, false⟩,
           ⟨p.timestamp, f.timestamp, false⟩]) ∧
    (ps.length = PLANNING_STREAK_THRESHOLD →
      (List.foldl sessionStep (acc, c) (ps ++ [f])).1 = acc ∧
      (List.foldl sessionStep (acc, c) (ps ++ [f])).2.planningMs =
        c.planningMs + (f.timestamp - p.timestamp) ∧
      (List.foldl sessionStep (acc, c) (ps ++ [f])).2.codingMs =
        c.codingMs + (p.timestamp - c.currentActivityStart) ∧
      (List.foldl sessionStep (acc, c) (ps ++ [f])).2.activitySegments =
        c.activitySegments ++
          [⟨c.currentActivityStart, p.timestamp, false⟩,
           ⟨p.timestamp, f.timestamp, true⟩]) := by
  match ps, hhead with
  | p :: rest, rfl =>
  simp only [List.cons_append, List.foldl_cons]
  have hok0 := hok
  simp only [List.cons_append, stepOk, Bool.and_eq_true, decide_eq_true_eq] at hok0
  obtain ⟨⟨hgt1, hle1⟩, hokrf⟩ := hok0
  have hp : p.planning = true := hpl p (by simp)
  have hokr : stepOk p.timestamp rest = true := stepOk_append_left _ _ _ hokrf
  have hlastf := stepOk_last p.timestamp rest f hokrf
  have hlast : p.timestamp ≤ lastTS p.timestamp rest := lastTS_mono _ _ hokr
  -- the flip into the planning run
  have hstep1 : sessionStep (acc, c) p =
      (acc, { c with «end» := p.timestamp
                     lastTimestamp := p.timestamp
                     currentActivityStart := p.timestamp
                     planningStreak := 1
                     heartbeats := c.heartbeats + 1
                     projects := addProject c.projects p.project
                     codingMs := c.codingMs + (p.timestamp - c.currentActivityStart)
                     activitySegments := c.activitySegments ++
                       [⟨c.currentActivityStart, p.timestamp, false⟩] }) := by
    simp only [sessionStep]
    rw [if_neg (show ¬ SESSION_GAP_THRESHOLD_MS < p.timestamp - c.«end» by omega)]
    rw [if_pos (show p.planning ≠ decide (0 < c.planningStreak) by simp [hp, hc])]
    simp only [flushCurrentActivity]
    rw [if_pos (show c.currentActivityStart < p.timestamp by omega)]
    simp [hp, hc, PLANNING_STREAK_THRESHOLD]
  rw [hstep1]
  simp only [List.foldl_append]
  rw [planning_run_extend acc
    { c with «end» := p.timestamp
             lastTimestamp := p.timestamp
             currentActivityStart := p.timestamp
             planningStreak := 1
             heartbeats := c.heartbeats + 1
             projects := addProject c.projects p.project
             codingMs := c.codingMs + (p.timestamp - c.currentActivityStart)
             activitySegments := c.activitySegments ++
               [⟨c.currentActivityStart, p.timestamp, false⟩] }
    rest (fun x hx => hpl x (by simp [hx])) (by simp) (by simpa using hokr)]
  simp only [List.foldl_cons, List.foldl_nil]
  constructor
  all_goals intro hlen
  · -- run of PLANNING_STREAK_THRESHOLD - 1: folded into coding
    simp only [sessionStep]
    rw [if_neg (show ¬ SESSION_GAP_THRESHOLD_MS <
      f.timestamp - lastTS p.timestamp rest by omega)]
    rw [if_pos (show f.planning ≠ decide (0 < 1 + rest.length) by simp [hf])]
    simp only [flushCurrentActivity]
    rw [if_pos (show p.timestamp < f.timestamp by omega)]
    have hstreak5 : ¬ PLANNING_STREAK_THRESHOLD ≤ 1 + rest.length := by
      simp only [List.length_cons, PLANNING_STREAK_THRESHOLD] at hlen ⊢
      omega
    simp [hf, hstreak5]
    omega
  · -- run of PLANNING_STREAK_THRESHOLD: attributed to planning in full
    simp only [sessionStep]
    rw [if_neg (show ¬ SESSION_GAP_THRESHOLD_MS <
      f.timestamp - lastTS p.timestamp rest by omega)]
    rw [if_pos (show f.planning ≠ decide (0 < 1 + rest.length) by simp [hf])]
    simp only [flushCurrentActivity]
    rw [if_pos (show p.timestamp < f.timestamp by omega)]
    have hstreak5 : PLANNING_STREAK_THRESHOLD ≤ 1 + rest.length := by
      simp only [List.length_cons, PLANNING_STREAK_THRESHOLD] at hlen ⊢
      omega
    simp [hf, hstreak5]

/-- Witness for `hysteresis_boundary`: a coding heartbeat at 0, planning
heartbeats at minute marks, and a closing coding heartbeat. -/
theorem hysteresis_boundary_witness :
    ((([⟨"p1", 60000, none, true⟩, ⟨"p2", 120000, none, true⟩,
        ⟨"p3", 180000, none, true⟩, ⟨"p4", 240000, none, true⟩] : List HB).length
        = PLANNING_STREAK_THRESHOLD - 1) ∧
      (List.foldl sessionStep ([], initCurrentSession ⟨"c0", 0, none, false⟩)
        ([⟨"p1", 60000, none, true⟩, ⟨"p2", 120000, none, true⟩,
          ⟨"p3", 180000, none, true⟩, ⟨"p4", 240000, none, true⟩] ++
         [⟨"c1", 300000, none, false⟩])).2.planningMs = 0) ∧
    ((([⟨"q1", 60000, none, true⟩, ⟨"q2", 120000, none, true⟩,
        ⟨"q3", 180000, none, true⟩, ⟨"q4", 240000, none, true⟩,
        ⟨"q5", 300000, none, true⟩] : List HB).length
        = PLANNING_STREAK_THRESHOLD) ∧
      (List.foldl sessionStep ([], initCurrentSession ⟨"c0", 0, none, false⟩)
        ([⟨"q1", 60000, none, true⟩, ⟨"q2", 120000, none, true⟩,
          ⟨"q3", 180000, none, true⟩, ⟨"q4", 240000, none, true⟩,
          ⟨"q5", 300000, none, true⟩] ++
         [⟨"c1", 360000, none, false⟩])).2.planningMs = 0 + (360000 - 60000)) := by
  constructor
  · refine ⟨by decide, ?_⟩
    have h := (hysteresis_boundary []
      (initCurrentSession ⟨"c0", 0, none, false⟩)
      [⟨"p1", 60000, none, true⟩, ⟨"p2", 120000, none, true⟩,
       ⟨"p3", 180000, none, true⟩, ⟨"p4", 240000, none, true⟩]
      ⟨"p1", 60000, none, true⟩ ⟨"c1", 300000, none, false⟩
      (by decide) (by decide) (by decide) (by decide) (by decide)
      (by decide)).1 (by decide)
    simpa using h.2.1
  · refine ⟨by decide, ?_⟩
    have h := (hysteresis_boundary []
      (initCurrentSession ⟨"c0", 0, none, false⟩)
      [⟨"q1", 60000, none, true⟩, ⟨"q2", 120000, none, true⟩,
       ⟨"q3", 180000, none, true⟩, ⟨"q4", 240000, none, true⟩,
       ⟨"q5", 300000, none, true⟩]
      ⟨"q1", 60000, none, true⟩ ⟨"c1", 360000, none, false⟩
      (by decide) (by decide) (by decide) (by decide) (by decide)
      (by decide)).2 (by decide)
    simpa using h.2.1

/-! ## Structural invariants of the segmentation algorithm -/

/-- Sum of the durations of a list of activity segments. -/
def segSum (l : List ActivitySegment) : Int :=
  (l.map (fun s => s.«end» - s.start)).sum

/-- Well-formedness of a closed session: duration bookkeeping, additivity
of the activity split, and the per-heartbeat gap bound. -/
def SessionOK (s : Session) : Prop :=
  s.start ≤ s.«end» ∧
  s.durationMs = s.«end» - s.start ∧
  s.codingMs + s.planningMs = s.«end» - s.start ∧
  segSum s.activitySegments = s.codingMs + s.planningMs ∧
  1 ≤ s.heartbeats ∧
  s.durationMs ≤ SESSION_GAP_THRESHOLD_MS * ((s.heartbeats : Int) - 1)

/-- Well-formedness of the in-progress session state: the flushed prefix
`[start, currentActivityStart]` is exactly accounted for in
`codingMs + planningMs` and in the segment list. -/
def curOK (c : CurrentSession) : Prop :=
  c.start ≤ c.currentActivityStart ∧
  c.currentActivityStart ≤ c.«end» ∧
  c.codingMs + c.planningMs = c.currentActivityStart - c.start ∧
  segSum c.activitySegments = c.codingMs + c.planningMs ∧
  1 ≤ c.heartbeats ∧
  c.«end» - c.start ≤ SESSION_GAP_THRESHOLD_MS * ((c.heartbeats : Int) - 1)

theorem initCurrentSession_ok (row : HB) : curOK (initCurrentSession row) := by
  simp [curOK, initCurrentSession, segSum]

/-- Effect of `flushCurrentActivity` on the bookkeeping fields. -/
theorem flushCurrentActivity_spec (c : CurrentSession) (t : Int) (b : Bool)
    (h : c.currentActivityStart ≤ t) :
    (flushCurrentActivity c t b).codingMs + (flushCurrentActivity c t b).planningMs
      = c.codingMs + c.planningMs + (t - c.currentActivityStart) ∧
    segSum (flushCurrentActivity c t b).activitySegments
      = segSum c.activitySegments + (t - c.currentActivityStart) ∧
    (flushCurrentActivity c t b).start = c.start ∧
    (flushCurrentActivity c t b).«end» = c.«end» ∧
    (flushCurrentActivity c t b).currentActivityStart = c.currentActivityStart ∧
    (flushCurrentActivity c t b).heartbeats = c.heartbeats ∧
    (flushCurrentActivity c t b).planningStreak = c.planningStreak := by
  by_cases hlt : c.currentActivityStart < t
  · simp only [flushCurrentActivity, if_pos hlt]
    rcases b && decide (PLANNING_STREAK_THRESHOLD ≤ c.planningStreak) with _ | _ <;>
      simp [segSum] <;> omega
  · have ht : t = c.currentActivityStart := by omega
    simp [flushCurrentActivity, ht]

/-- Closing a flushed `currentSession` yields a well-formed session. -/
theorem closedSession_ok (c : CurrentSession) (hc : curOK c) :
    SessionOK (closedSession
      (flushCurrentActivity c c.«end» (decide (0 < c.planningStreak)))) := by
  obtain ⟨h1, h2, h3, h4, h5, h6⟩ := hc
  obtain ⟨f1, f2, f3, f4, f5, f6, f7⟩ :=
    flushCurrentActivity_spec c c.«end» (decide (0 < c.planningStreak)) h2
  refine ⟨?_, ?_, ?_, ?_, ?_, ?_⟩ <;>
    simp only [closedSession, SessionOK, f1, f2, f3, f4, f5, f6] <;> omega

/-- Non-decreasing heartbeat timestamps starting from time `t`. -/
def sortedFrom : Int → List HB → Bool
  | _, [] => true
  | t, hb :: rest => decide (t ≤ hb.timestamp) && sortedFrom hb.timestamp rest

/-- Non-decreasing heartbeat timestamps (the input contract of the
segmentation algorithm). -/
def sortedHB : List HB → Bool
  | [] => true
  | hb :: rest => sortedFrom hb.timestamp rest

/-- Session-skeleton separation chain: consecutive produced sessions are
separated by strictly more than the gap threshold; the in-progress
session counts as the final skeleton entry. -/
def sepChain (st : List Session × CurrentSession) : Prop :=
  List.Chain' (fun a b => a.2 + SESSION_GAP_THRESHOLD_MS < b.1)
    (st.1.map (fun s => (s.start, s.«end»)) ++ [(st.2.start, st.2.«end»)])

/-- Start of the first (possibly still open) session. -/
def headStart (st : List Session × CurrentSession) : Int :=
  match st.1 with
  | [] => st.2.start
  | s :: _ => s.start

/-- Full invariant of the batch fold: all closed sessions are wellformed,
the working session is well formed, sessions are separated by more than
the gap threshold, the first session starts at the first heartbeat, and
every session start is some heartbeat's timestamp. -/
def batchInv (t0 : Int) (ts : List Int) (st : List Session × CurrentSession) : Prop :=
  (∀ s ∈ st.1, SessionOK s) ∧ curOK st.2 ∧ sepChain st ∧ headStart st = t0 ∧
  st.2.start ∈ ts ∧ (∀ s ∈ st.1, s.start ∈ ts)

theorem sessionStep_end (acc : List Session) (c : CurrentSession) (row : HB) :
    (sessionStep (acc, c) row).2.«end» = row.timestamp := by
  simp only [sessionStep]
  by_cases hgap : SESSION_GAP_THRESHOLD_MS < row.timestamp - c.«end»
  · rw [if_pos hgap]; rfl
  · rw [if_neg hgap]

theorem sessionStep_inv (t0 : Int) (ts : List Int) (acc : List Session)
    (c : CurrentSession) (row : HB)
    (hall : ∀ s ∈ acc, SessionOK s) (hcur : curOK c)
    (hchain : sepChain (acc, c)) (hhead : headStart (acc, c) = t0)
    (hcmem : c.start ∈ ts) (hsmem : ∀ s ∈ acc, s.start ∈ ts)
    (hmem : row.timestamp ∈ ts)
    (hts : c.«end» ≤ row.timestamp) :
    batchInv t0 ts (sessionStep (acc, c) row) := by
  obtain ⟨h1, h2, h3, h4, h5, h6⟩ := hcur
  by_cases hgap : SESSION_GAP_THRESHOLD_MS < row.timestamp - c.«end»
  · have hres : sessionStep (acc, c) row =
        (acc ++ [closedSession
          (flushCurrentActivity c c.«end» (decide (0 < c.planningStreak)))],
         initCurrentSession row) := by
      simp only [sessionStep]
      rw [if_pos hgap]
    rw [hres]
    obtain ⟨f1, f2, f3, f4, f5, f6, f7⟩ :=
      flushCurrentActivity_spec c c.«end» (decide (0 < c.planningStreak)) h2
    refine ⟨?_, initCurrentSession_ok row, ?_, ?_, ?_, ?_⟩
    · intro s hs
      rcases List.mem_append.1 hs with hs | hs
      · exact hall s hs
      · rcases List.mem_singleton.1 hs with rfl
        exact closedSession_ok c ⟨h1, h2, h3, h4, h5, h6⟩
    · simp only [sepChain, List.map_append, List.map_cons, List.map_nil,
        closedSession, f3, f4, initCurrentSession] at hchain ⊢
      rw [List.append_assoc]
      rw [List.chain'_append] at hchain ⊢
      refine ⟨hchain.1, ?_, ?_⟩
      · simp only [List.cons_append, List.nil_append]
        refine List.chain'_cons.2 ⟨?_, List.chain'_singleton _⟩
        show c.«end» + SESSION_GAP_THRESHOLD_MS < row.timestamp
        omega
      · intro x hx y hy
        simp only [List.cons_append, List.nil_append, List.head?_cons,
          Option.mem_def, Option.some.injEq] at hy
        subst hy
        exact hchain.2.2 x hx (c.start, c.«end») rfl
    · simp only [headStart] at hhead ⊢
      cases acc with
      | nil => simpa [closedSession, f3] using hhead
      | cons a l => simpa using hhead
    · simpa [initCurrentSession] using hmem
    · intro s hs
      rcases List.mem_append.1 hs with hs | hs
      · exact hsmem s hs
      · rcases List.mem_singleton.1 hs with rfl
        simpa [closedSession, f3] using hcmem
  · -- in-session branches: start is preserved and `end` becomes the new
    -- timestamp, so the separation chain and head facts carry over
    have key : ∀ c' : CurrentSession,
        c'.start = c.start → c'.«end» = row.timestamp →
        c'.heartbeats = c.heartbeats + 1 →
        c.start ≤ c'.currentActivityStart →
        c'.currentActivityStart ≤ row.timestamp →
        c'.codingMs + c'.planningMs = c'.currentActivityStart - c.start →
        segSum c'.activitySegments = c'.codingMs + c'.planningMs →
        batchInv t0 ts (acc, c') := by
      intro c' g1 g2 g3 g4 g5 g6 g7
      refine ⟨hall, ?_, ?_, ?_, ?_, hsmem⟩
      · have h6' := h6
        have hgap' := hgap
        simp only [SESSION_GAP_THRESHOLD_MS] at h6' hgap'
        refine ⟨?_, ?_, ?_, ?_, ?_, ?_⟩ <;>
          simp only [g1, g2, g3, g6, g7, SESSION_GAP_THRESHOLD_MS] <;>
          push_cast <;> omega
      · simp only [sepChain, List.map_append] at hchain ⊢
        rw [List.chain'_append] at hchain ⊢
        refine ⟨hchain.1, List.chain'_singleton _, ?_⟩
        intro x hx y hy
        simp only [List.head?_cons, Option.mem_def, Option.some.injEq] at hy
        subst hy
        have := hchain.2.2 x hx (c.start, c.«end») rfl
        simpa [g1] using this
      · simp only [headStart] at hhead ⊢
        cases acc with
        | nil => simpa [g1] using hhead
        | cons a l => simpa using hhead
      · simpa [g1] using hcmem
    by_cases hflip : row.planning ≠ decide (0 < c.planningStreak)
    · obtain ⟨f1, f2, f3, f4, f5, f6, f7⟩ :=
        flushCurrentActivity_spec c row.timestamp (decide (0 < c.planningStreak))
          (by omega)
      have hres : sessionStep (acc, c) row =
          (acc,
            { start :=
                (flushCurrentActivity c row.timestamp
                  (decide (0 < c.planningStreak))).start
              «end» := row.timestamp
              heartbeats := (flushCurrentActivity c row.timestamp
                (decide (0 < c.planningStreak))).heartbeats + 1
              projects := addProject (flushCurrentActivity c row.timestamp
                (decide (0 < c.planningStreak))).projects row.project
              codingMs := (flushCurrentActivity c row.timestamp
                (decide (0 < c.planningStreak))).codingMs
              planningMs := (flushCurrentActivity c row.timestamp
                (decide (0 < c.planningStreak))).planningMs
              lastTimestamp := row.timestamp
              currentActivityStart := row.timestamp
              planningStreak := if row.planning then 1 else 0
              activitySegments := (flushCurrentActivity c row.timestamp
                (decide (0 < c.planningStreak))).activitySegments }) := by
        simp only [sessionStep]
        rw [if_neg hgap, if_pos hflip]
      rw [hres]
      refine key _ f3 rfl (by rw [f6]) (by show c.start ≤ row.timestamp; omega)
        (le_refl _) ?_ ?_
      · show (flushCurrentActivity c row.timestamp
          (decide (0 < c.planningStreak))).codingMs +
          (flushCurrentActivity c row.timestamp
            (decide (0 < c.planningStreak))).planningMs = row.timestamp - c.start
        omega
      · show segSum (flushCurrentActivity c row.timestamp
          (decide (0 < c.planningStreak))).activitySegments =
          (flushCurrentActivity c row.timestamp
            (decide (0 < c.planningStreak))).codingMs +
          (flushCurrentActivity c row.timestamp
            (decide (0 < c.planningStreak))).planningMs
        omega
    · by_cases hp : row.planning = true
      · have hres : sessionStep (acc, c) row =
            (acc,
              { c with
                planningStreak := c.planningStreak + 1
                «end» := row.timestamp
                lastTimestamp := row.timestamp
                heartbeats := c.heartbeats + 1
                projects := addProject c.projects row.project }) := by
          simp only [sessionStep]
          rw [if_neg hgap, if_neg hflip, if_pos hp]
        rw [hres]
        exact key _ rfl rfl rfl
          (show c.start ≤ c.currentActivityStart from h1)
          (show c.currentActivityStart ≤ row.timestamp by omega)
          (show c.codingMs + c.planningMs = c.currentActivityStart - c.start
            from h3)
          (show segSum c.activitySegments = c.codingMs + c.planningMs from h4)
      · have hres : sessionStep (acc, c) row =
            (acc,
              { c with
                «end» := row.timestamp
                lastTimestamp := row.timestamp
                heartbeats := c.heartbeats + 1
                projects := addProject c.projects row.project }) := by
          simp only [sessionStep]
          rw [if_neg hgap, if_neg hflip, if_neg hp]
        rw [hres]
        exact key _ rfl rfl rfl
          (show c.start ≤ c.currentActivityStart from h1)
          (show c.currentActivityStart ≤ row.timestamp by omega)
          (show c.codingMs + c.planningMs = c.currentActivityStart - c.start
            from h3)
          (show segSum c.activitySegments = c.codingMs + c.planningMs from h4)

theorem foldl_sessionStep_inv (t0 : Int) (ts : List Int) (l : List HB) :
    ∀ (acc : List Session) (c : CurrentSession),
    batchInv t0 ts (acc, c) → sortedFrom c.«end» l = true →
    (∀ hb ∈ l, hb.timestamp ∈ ts) →
    batchInv t0 ts (l.foldl sessionStep (acc, c)) := by
  induction l with
  | nil =>
    intro acc c h _ _
    simpa using h
  | cons hb rest ih =>
    intro acc c h hsort hmem
    simp only [sortedFrom, Bool.and_eq_true, decide_eq_true_eq] at hsort
    obtain ⟨hle, hsort⟩ := hsort
    obtain ⟨hall, hcur, hchain, hhead, hcmem, hsmem⟩ := h
    simp only [List.foldl_cons]
    have hstep := sessionStep_inv t0 ts acc c hb hall hcur hchain hhead hcmem hsmem
      (hmem hb (by simp)) hle
    have hend := sessionStep_end acc c hb
    rcases hres : sessionStep (acc, c) hb with ⟨acc', c'⟩
    rw [hres] at hstep hend
    exact ih acc' c' hstep (by rw [hend]; exact hsort)
      (fun x hx => hmem x (by simp [hx]))

/-- The output-level invariant of the batch segmentation algorithm on a
nonempty sorted input. -/
theorem computeSessions_inv (row0 : HB) (rest : List HB)
    (hsort : sortedFrom row0.timestamp rest = true) :
    (∀ s ∈ computeSessionsFromHeartbeats (row0 :: rest),
      SessionOK s ∧ s.start ∈ (row0 :: rest).map HB.timestamp) ∧
    List.Chain' (fun a b => a.«end» + SESSION_GAP_THRESHOLD_MS < b.start)
      (computeSessionsFromHeartbeats (row0 :: rest)) ∧
    (computeSessionsFromHeartbeats (row0 :: rest)).head?.map Session.start =
      some row0.timestamp := by
  have hinit : batchInv row0.timestamp ((row0 :: rest).map HB.timestamp)
      ([], initCurrentSession row0) := by
    refine ⟨by simp, initCurrentSession_ok row0, ?_, by simp [headStart, initCurrentSession],
      by simp [initCurrentSession], by simp⟩
    simp only [sepChain, List.map_nil, List.nil_append]
    exact List.chain'_singleton _
  have hfold := foldl_sessionStep_inv row0.timestamp
    ((row0 :: rest).map HB.timestamp) rest [] (initCurrentSession row0) hinit
    (by simpa [initCurrentSession] using hsort)
    (fun x hx => by simp [List.mem_map]; exact Or.inr ⟨x, hx, rfl⟩)
  rcases hres : rest.foldl sessionStep ([], initCurrentSession row0) with ⟨acc, c⟩
  rw [hres] at hfold
  obtain ⟨hall, hcur, hchain, hhead, hcmem, hsmem⟩ := hfold
  obtain ⟨f1, f2, f3, f4, f5, f6, f7⟩ :=
    flushCurrentActivity_spec c c.«end» (decide (0 < c.planningStreak)) hcur.2.1
  have hout : computeSessionsFromHeartbeats (row0 :: rest) =
      acc ++ [closedSession
        (flushCurrentActivity c c.«end» (decide (0 < c.planningStreak)))] := by
    simp only [computeSessionsFromHeartbeats, hres]
  rw [hout]
  refine ⟨?_, ?_, ?_⟩
  · intro s hs
    rcases List.mem_append.1 hs with hs | hs
    · exact ⟨hall s hs, hsmem s hs⟩
    · rcases List.mem_singleton.1 hs with rfl
      exact ⟨closedSession_ok c hcur, by simpa [closedSession, f3] using hcmem⟩
  · have := hchain
    simp only [sepChain] at this
    have hmapped : (acc ++ [closedSession
        (flushCurrentActivity c c.«end» (decide (0 < c.planningStreak)))]).map
          (fun s => (s.start, s.«end»)) =
        acc.map (fun s => (s.start, s.«end»)) ++ [(c.start, c.«end»)] := by
      simp [closedSession, f3, f4]
    have hchain2 : List.Chain'
        (fun a b : Int × Int => a.2 + SESSION_GAP_THRESHOLD_MS < b.1)
        ((acc ++ [closedSession
          (flushCurrentActivity c c.«end» (decide (0 < c.planningStreak)))]).map
            (fun s => (s.start, s.«end»))) := by
      rw [hmapped]; exact this
    rw [List.chain'_map] at hchain2
    exact hchain2
  · simp only [headStart] at hhead
    cases acc with
    | nil => simpa [closedSession, f3] using congrArg some hhead
    | cons a l => simpa using congrArg some hhead

/-! ## C10: session structure invariants of the batch algorithm -/

/-- **C10.** For every non-decreasing heartbeat input: each produced
session has `start ≤ end` with `durationMs = end - start`, consecutive
heartbeats inside one session are at most the gap threshold apart (so
`durationMs ≤ SESSION_GAP_THRESHOLD_MS * (heartbeats - 1)`), every session
start is the timestamp of an input heartbeat and the first session starts
at the first heartbeat's timestamp, and any two consecutive output
sessions are separated by strictly more than `SESSION_GAP_THRESHOLD_MS`
(hence sessions appear in order and never overlap). -/
theorem batch_structure_invariants (rows : List HB)
    (hsort : sortedHB rows = true) :
    (∀ s ∈ computeSessionsFromHeartbeats rows,
      s.start ≤ s.«end» ∧
      s.durationMs = s.«end» - s.start ∧
      s.durationMs ≤ SESSION_GAP_THRESHOLD_MS * ((s.heartbeats : Int) - 1) ∧
      s.start ∈ rows.map HB.timestamp) ∧
    List.Chain' (fun a b => a.«end» + SESSION_GAP_THRESHOLD_MS < b.start)
      (computeSessionsFromHeartbeats rows) ∧
    (computeSessionsFromHeartbeats rows).head?.map Session.start =
      rows.head?.map HB.timestamp := by
  cases rows with
  | nil => simp [computeSessionsFromHeartbeats]
  | cons row0 rest =>
    obtain ⟨hall, hchain, hhead⟩ :=
      computeSessions_inv row0 rest (by simpa [sortedHB] using hsort)
    refine ⟨?_, hchain, by simpa using hhead⟩
    intro s hs
    obtain ⟨⟨o1, o2, o3, o4, o5, o6⟩, hm⟩ := hall s hs
    exact ⟨o1, o2, o6, hm⟩

/-- Witness for `batch_structure_invariants` on a concrete three-session
day. -/
theorem batch_structure_invariants_witness :
    sortedHB [⟨"a", 50, some "p", false⟩, ⟨"b", 2000, none, true⟩,
      ⟨"c", 2400000, none, false⟩] = true ∧
    List.Chain' (fun a b => a.«end» + SESSION_GAP_THRESHOLD_MS < b.start)
      (computeSessionsFromHeartbeats [⟨"a", 50, some "p", false⟩,
        ⟨"b", 2000, none, true⟩, ⟨"c", 2400000, none, false⟩]) :=
  ⟨by decide,
   (batch_structure_invariants [⟨"a", 50, some "p", false⟩,
     ⟨"b", 2000, none, true⟩, ⟨"c", 2400000, none, false⟩] (by decide)).2.1⟩

/-! ## Live-store invariant and C5 -/

/-- Well-formedness of the open session of the live store. -/
def activeOK (a : ActiveSession) : Prop :=
  a.start ≤ a.currentActivityStart ∧
  a.currentActivityStart ≤ a.«end» ∧
  a.codingMs + a.planningMs = a.currentActivityStart - a.start ∧
  segSum a.activitySegments = a.codingMs + a.planningMs

/-- Invariant of the live store state: closed sessions satisfy the
additivity property, the open session is well formed, and
`lastHeartbeatTimestamp` mirrors the open session's `end`. -/
def todayInv (st : TodayState) : Prop :=
  (∀ s ∈ st.sessions,
    s.codingMs + s.planningMs = segSum s.activitySegments ∧
    segSum s.activitySegments ≤ s.durationMs) ∧
  (∀ a ∈ st.activeSession, activeOK a) ∧
  (∀ a ∈ st.activeSession, st.lastHeartbeatTimestamp = a.«end»)

/-- Effect of `flushActivityTime` on the bookkeeping fields (live-store
version of `flushCurrentActivity_spec`). -/
theorem flushActivityTime_spec (a : ActiveSession) (t : Int) (b : Bool)
    (h : a.currentActivityStart ≤ t) :
    (flushActivityTime a t b).codingMs + (flushActivityTime a t b).planningMs
      = a.codingMs + a.planningMs + (t - a.currentActivityStart) ∧
    segSum (flushActivityTime a t b).activitySegments
      = segSum a.activitySegments + (t - a.currentActivityStart) ∧
    (flushActivityTime a t b).start = a.start ∧
    (flushActivityTime a t b).«end» = a.«end» ∧
    (flushActivityTime a t b).currentActivityStart = a.currentActivityStart ∧
    (flushActivityTime a t b).heartbeats = a.heartbeats ∧
    (flushActivityTime a t b).planningStreak = a.planningStreak := by
  by_cases hlt : a.currentActivityStart < t
  · simp only [flushActivityTime, if_pos hlt]
    rcases b && decide (PLANNING_STREAK_THRESHOLD ≤ a.planningStreak) with _ | _ <;>
      simp [segSum] <;> omega
  · have ht : t = a.currentActivityStart := by omega
    simp [flushActivityTime, ht]

theorem finalizeActiveSession_sessions (st : TodayState) (h : todayInv st) :
    ∀ s ∈ (finalizeActiveSession st).sessions,
      s.codingMs + s.planningMs = segSum s.activitySegments ∧
      segSum s.activitySegments ≤ s.durationMs := by
  obtain ⟨hs, ha, _⟩ := h
  cases hcase : st.activeSession with
  | none =>
    simp only [finalizeActiveSession, hcase]
    exact hs
  | some a =>
    have haOK := ha a (by rw [hcase]; rfl)
    obtain ⟨o1, o2, o3, o4⟩ := haOK
    obtain ⟨f1, f2, f3, f4, f5, f6, f7⟩ :=
      flushActivityTime_spec a a.«end» (decide (0 < a.planningStreak)) o2
    intro s hmem
    simp only [finalizeActiveSession, hcase] at hmem
    rcases List.mem_append.1 hmem with hmem | hmem
    · exact hs s hmem
    · rcases List.mem_singleton.1 hmem with rfl
      refine ⟨?_, ?_⟩ <;>
        simp only [activeToSession, f1, f2, f3, f4] <;> omega

theorem finalizeActiveSession_dateKey (st : TodayState) :
    (finalizeActiveSession st).dateKey = st.dateKey := by
  cases hcase : st.activeSession with
  | none => simp [finalizeActiveSession, hcase]
  | some a => simp [finalizeActiveSession, hcase]

/-- `processHeartbeat` preserves the live-store invariant, provided the
new heartbeat is not earlier than the open session's `end`. -/
theorem processHeartbeat_inv (st : TodayState) (ts : Int)
    (proj : Option String) (pl : Bool)
    (h : todayInv st) (hts : ∀ a ∈ st.activeSession, a.«end» ≤ ts) :
    todayInv (processHeartbeat st ts proj pl) := by
  obtain ⟨hs, ha, hlast⟩ := h
  simp only [processHeartbeat]
  by_cases hcond : st.activeSession = none ∨ SESSION_GAP_THRESHOLD_MS <
      (if 0 < st.lastHeartbeatTimestamp then ts - st.lastHeartbeatTimestamp else 0)
  · rw [if_pos hcond]
    refine ⟨?_, ?_, ?_⟩
    · intro s hmem
      by_cases hnone : st.activeSession = none
      · rw [if_pos hnone] at hmem
        exact hs s hmem
      · rw [if_neg hnone] at hmem
        exact finalizeActiveSession_sessions st ⟨hs, ha, hlast⟩ s hmem
    · intro a hmem
      simp only [Option.mem_def, Option.some.injEq] at hmem
      subst hmem
      refine ⟨?_, ?_, ?_, ?_⟩ <;> simp [segSum]
    · intro a hmem
      simp only [Option.mem_def, Option.some.injEq] at hmem
      subst hmem
      rfl
  · rw [if_neg hcond]
    push_neg at hcond
    obtain ⟨hsome, _⟩ := hcond
    cases hcase : st.activeSession with
    | none => exact absurd hcase hsome
    | some a =>
      have haOK := ha a (by rw [hcase]; rfl)
      obtain ⟨o1, o2, o3, o4⟩ := haOK
      have hats : a.«end» ≤ ts := hts a (by rw [hcase]; rfl)
      simp only [hcase]
      have key : ∀ a' : ActiveSession,
          a'.start ≤ a'.currentActivityStart →
          a'.currentActivityStart ≤ ts →
          a'.codingMs + a'.planningMs = a'.currentActivityStart - a'.start →
          segSum a'.activitySegments = a'.codingMs + a'.planningMs →
          todayInv
            { dateKey := st.dateKey
              sessions := st.sessions
              activeSession := some
                { a' with «end» := ts
                          heartbeats := a'.heartbeats + 1
                          projects := addProject a'.projects proj }
              lastHeartbeatTimestamp := ts } := by
        intro a' g1 g2 g3 g4
        refine ⟨fun s hmem => hs s hmem, ?_, ?_⟩
        · intro x hmem
          simp only [Option.mem_def, Option.some.injEq] at hmem
          subst hmem
          exact ⟨g1, g2, g3, g4⟩
        · intro x hmem
          simp only [Option.mem_def, Option.some.injEq] at hmem
          subst hmem
          rfl
      by_cases hflip : pl ≠ decide (0 < a.planningStreak)
      · rw [if_pos hflip]
        obtain ⟨f1, f2, f3, f4, f5, f6, f7⟩ :=
          flushActivityTime_spec a ts (decide (0 < a.planningStreak)) (by omega)
        have := key
          { flushActivityTime a ts (decide (0 < a.planningStreak)) with
            currentActivityStart := ts
            planningStreak := if pl then 1 else 0 }
          (by show (flushActivityTime a ts _).start ≤ ts; rw [f3]; omega)
          (le_refl ts)
          (by show (flushActivityTime a ts _).codingMs +
                (flushActivityTime a ts _).planningMs = ts -
                (flushActivityTime a ts _).start
              rw [f3]; omega)
          (by show segSum (flushActivityTime a ts _).activitySegments =
                (flushActivityTime a ts _).codingMs +
                (flushActivityTime a ts _).planningMs
              omega)
        exact this
      · rw [if_neg hflip]
        by_cases hp : pl = true
        · rw [if_pos hp]
          exact key { a with planningStreak := a.planningStreak + 1 }
            (show a.start ≤ a.currentActivityStart from o1)
            (show a.currentActivityStart ≤ ts by omega)
            (show a.codingMs + a.planningMs = a.currentActivityStart - a.start
              from o3)
            (show segSum a.activitySegments = a.codingMs + a.planningMs from o4)
        · rw [if_neg hp]
          exact key a o1 (by omega) o3 o4

theorem processHeartbeat_state (st : TodayState) (ts : Int)
    (proj : Option String) (pl : Bool) :
    (processHeartbeat st ts proj pl).lastHeartbeatTimestamp = ts ∧
    ((processHeartbeat st ts proj pl).activeSession = none ∨
      ∃ x, (processHeartbeat st ts proj pl).activeSession = some x ∧
        x.«end» = ts) := by
  simp only [processHeartbeat]
  by_cases hcond : st.activeSession = none ∨ SESSION_GAP_THRESHOLD_MS <
      (if 0 < st.lastHeartbeatTimestamp then ts - st.lastHeartbeatTimestamp else 0)
  · rw [if_pos hcond]
    simp
  · rw [if_neg hcond]
    cases hcase : st.activeSession with
    | none => simp [hcase]
    | some a => simp [hcase]

theorem ensureCurrentDate_cases (today : DKey) (st : TodayState) :
    (ensureCurrentDate today st).2 = st ∨
    (ensureCurrentDate today st).2 = initialTodayState today := by
  by_cases hd : st.dateKey ≠ today
  · right; simp [ensureCurrentDate, hd]
  · left; simp [ensureCurrentDate, hd]

theorem initialTodayState_inv (today : DKey) :
    todayInv (initialTodayState today) := by
  refine ⟨by simp [initialTodayState], ?_, ?_⟩ <;>
    intro a hmem <;> simp [initialTodayState] at hmem

theorem sortedFrom_sortedHB (t : Int) (l : List HB)
    (h : sortedFrom t l = true) : sortedHB l = true := by
  cases l with
  | nil => rfl
  | cons x xs =>
    simp only [sortedFrom, Bool.and_eq_true] at h
    simpa [sortedHB] using h.2

/-- Pushing a sorted run of heartbeats preserves the live-store
invariant. -/
theorem pushAll_inv (today : DKey) (rows : List HB) :
    ∀ st : TodayState, todayInv st →
    (match st.activeSession with
     | none => sortedHB rows
     | some a => sortedFrom a.«end» rows) = true →
    todayInv (pushAll today st rows) := by
  induction rows with
  | nil =>
    intro st h _
    simpa [pushAll] using h
  | cons hb rest ih =>
    intro st h hsorted
    show todayInv (pushAll today (pushHeartbeat today st hb) rest)
    have hst2 := ensureCurrentDate_cases today st
    have hinv2 : todayInv (ensureCurrentDate today st).2 := by
      rcases hst2 with h2 | h2 <;> rw [h2]
      · exact h
      · exact initialTodayState_inv today
    have hts2 : ∀ a ∈ (ensureCurrentDate today st).2.activeSession,
        a.«end» ≤ hb.timestamp := by
      rcases hst2 with h2 | h2 <;> rw [h2]
      · intro a hmem
        rw [show st.activeSession = some a from hmem] at hsorted
        simp only [sortedFrom, Bool.and_eq_true, decide_eq_true_eq] at hsorted
        exact hsorted.1
      · intro a hmem
        simp [initialTodayState] at hmem
    have hpinv : todayInv (pushHeartbeat today st hb) :=
      processHeartbeat_inv _ hb.timestamp hb.project hb.planning hinv2 hts2
    have hstate := processHeartbeat_state (ensureCurrentDate today st).2
      hb.timestamp hb.project hb.planning
    have hrest : sortedFrom hb.timestamp rest = true := by
      rcases hcase : st.activeSession with _ | a
      · rw [hcase] at hsorted
        simpa [sortedHB] using hsorted
      · rw [hcase] at hsorted
        simp only [sortedFrom, Bool.and_eq_true] at hsorted
        exact hsorted.2
    apply ih _ hpinv
    rcases hstate.2 with hnone | ⟨x, hx, hxe⟩
    · rw [show (pushHeartbeat today st hb).activeSession = none from hnone]
      show sortedHB rest = true
      exact sortedFrom_sortedHB hb.timestamp rest hrest
    · rw [show (pushHeartbeat today st hb).activeSession = some x from hx]
      show sortedFrom x.«end» rest = true
      rw [hxe]
      exact hrest

theorem segSum_append (l : List ActivitySegment) (x : ActivitySegment) :
    segSum (l ++ [x]) = segSum l + (x.«end» - x.start) := by
  simp [segSum]

theorem materializeActiveSession_ok (a : ActiveSession) (h : activeOK a) :
    (materializeActiveSession a).codingMs + (materializeActiveSession a).planningMs
      = segSum (materializeActiveSession a).activitySegments ∧
    segSum (materializeActiveSession a).activitySegments ≤
      (materializeActiveSession a).durationMs := by
  obtain ⟨o1, o2, o3, o4⟩ := h
  by_cases hlt : a.currentActivityStart < a.«end»
  · simp only [materializeActiveSession, if_pos hlt]
    rcases decide (0 < a.planningStreak) &&
        decide (PLANNING_STREAK_THRESHOLD ≤ a.planningStreak) with _ | _ <;>
      simp [segSum_append] <;> omega
  · simp only [materializeActiveSession, if_neg hlt]
    constructor <;> omega

/-- `getSummary` built from an invariant-satisfying live state only
contains sessions with the additivity property. -/
theorem getSummary_sessions_additive (today : DKey) (st : TodayState)
    (h : todayInv st) :
    ∀ s ∈ (getSummary today st).2.sessions,
      s.codingMs + s.planningMs = segSum s.activitySegments ∧
      segSum s.activitySegments ≤ s.durationMs := by
  obtain ⟨hs, ha, hlast⟩ := h
  simp only [getSummary]
  by_cases hroll : (ensureCurrentDate today st).1
  · rw [if_pos hroll]
    intro s hmem
    simp [emptySummary] at hmem
  · rw [if_neg hroll]
    have hst : (ensureCurrentDate today st).2 = st := by
      simp only [ensureCurrentDate] at hroll ⊢
      by_cases hd : st.dateKey ≠ today
      · rw [if_pos hd] at hroll; simp at hroll
      · rw [if_neg hd]
    rw [hst]
    intro s hmem
    simp only at hmem
    rcases List.mem_append.1 hmem with hmem | hmem
    · exact hs s hmem
    · cases hcase : st.activeSession with
      | none => rw [hcase] at hmem; simp at hmem
      | some a =>
        rw [hcase] at hmem
        rcases List.mem_singleton.1 hmem with rfl
        exact materializeActiveSession_ok a (ha a (by rw [hcase]; rfl))

/-! ## C5: additivity of the activity split -/

/-- **C5.** For every non-decreasing heartbeat sequence, every session
produced by the batch segmentation algorithm and every session in the
live store's materialized summary satisfies
`codingMs + planningMs = sum of activity-segment durations` and that sum
is at most the session's `durationMs`. -/
theorem session_additivity (rows : List HB) (today : DKey)
    (hsort : sortedHB rows = true) :
    (∀ s ∈ computeSessionsFromHeartbeats rows,
      s.codingMs + s.planningMs = segSum s.activitySegments ∧
      segSum s.activitySegments ≤ s.durationMs) ∧
    (∀ s ∈ (getSummary today
        (pushAll today (initialTodayState today) rows)).2.sessions,
      s.codingMs + s.planningMs = segSum s.activitySegments ∧
      segSum s.activitySegments ≤ s.durationMs) := by
  constructor
  · cases rows with
    | nil => intro s hs; simp [computeSessionsFromHeartbeats] at hs
    | cons row0 rest =>
      intro s hs
      obtain ⟨⟨o1, o2, o3, o4, o5, o6⟩, _⟩ :=
        (computeSessions_inv row0 rest (by simpa [sortedHB] using hsort)).1 s hs
      constructor <;> omega
  · refine getSummary_sessions_additive today _ ?_
    exact pushAll_inv today rows (initialTodayState today)
      (initialTodayState_inv today) (by simpa [initialTodayState] using hsort)

/-- Witness for `session_additivity` on a concrete mixed run. -/
theorem session_additivity_witness :
    sortedHB [⟨"a", 100, some "p", false⟩, ⟨"b", 60100, none, true⟩,
      ⟨"c", 120100, none, true⟩, ⟨"d", 3000000, none, false⟩] = true ∧
    ∀ s ∈ computeSessionsFromHeartbeats [⟨"a", 100, some "p", false⟩,
        ⟨"b", 60100, none, true⟩, ⟨"c", 120100, none, true⟩,
        ⟨"d", 3000000, none, false⟩],
      s.codingMs + s.planningMs = segSum s.activitySegments ∧
      segSum s.activitySegments ≤ s.durationMs :=
  ⟨by decide,
   (session_additivity [⟨"a", 100, some "p", false⟩, ⟨"b", 60100, none, true⟩,
      ⟨"c", 120100, none, true⟩, ⟨"d", 3000000, none, false⟩]
      ⟨2024, 5, 1⟩ (by decide)).1⟩

/-! ## C1: live/batch equivalence -/

/-- Projection of the batch working state onto the live store's
`ActiveSession` (which has no `lastTimestamp` field). -/
def toActive (c : CurrentSession) : ActiveSession :=
  { start := c.start
    «end» := c.«end»
    projects := c.projects
    codingMs := c.codingMs
    planningMs := c.planningMs
    heartbeats := c.heartbeats
    currentActivityStart := c.currentActivityStart
    planningStreak := c.planningStreak
    activitySegments := c.activitySegments }

theorem toActive_flush (c : CurrentSession) (t : Int) (w : Bool) :
    flushActivityTime (toActive c) t w = toActive (flushCurrentActivity c t w) := by
  by_cases hlt : c.currentActivityStart < t
  · simp only [flushActivityTime, flushCurrentActivity, toActive]
    rw [if_pos hlt, if_pos hlt]
  · simp only [flushActivityTime, flushCurrentActivity, toActive]
    rw [if_neg hlt, if_neg hlt]

theorem activeToSession_toActive (c : CurrentSession) :
    activeToSession (toActive c) = closedSession c := rfl

theorem materialize_toActive (c : CurrentSession) :
    materializeActiveSession (toActive c) =
      closedSession (flushCurrentActivity c c.«end» (decide (0 < c.planningStreak))) := by
  by_cases hlt : c.currentActivityStart < c.«end»
  · simp only [materializeActiveSession, flushCurrentActivity, closedSession, toActive]
    rw [if_pos hlt, if_pos hlt]
  · simp only [materializeActiveSession, flushCurrentActivity, closedSession, toActive]
    rw [if_neg hlt, if_neg hlt]

/-- Refinement relation between the batch fold state and the live store
state: same closed sessions, the open session mirrors the batch working
session, and the gap sentinel is live (`lastHeartbeatTimestamp > 0`). -/
def liveRel (today : DKey) (b : List Session × CurrentSession)
    (st : TodayState) : Prop :=
  st.dateKey = today ∧
  st.sessions = b.1 ∧
  st.activeSession = some (toActive b.2) ∧
  st.lastHeartbeatTimestamp = b.2.«end» ∧
  0 < b.2.«end»

theorem pushHeartbeat_no_reset (today : DKey) (st : TodayState) (hb : HB)
    (hd : st.dateKey = today) :
    pushHeartbeat today st hb =
      processHeartbeat st hb.timestamp hb.project hb.planning := by
  simp [pushHeartbeat, ensureCurrentDate, hd]

theorem liveRel_first (today : DKey) (row : HB) (hpos : 0 < row.timestamp) :
    liveRel today ([], initCurrentSession row)
      (pushHeartbeat today (initialTodayState today) row) := by
  rw [pushHeartbeat_no_reset today _ row rfl]
  refine ⟨?_, ?_, ?_, ?_, hpos⟩ <;>
    simp [processHeartbeat, initialTodayState, toActive, initCurrentSession]

theorem liveRel_step (today : DKey) (b : List Session × CurrentSession)
    (st : TodayState) (row : HB) (hrel : liveRel today b st)
    (hpos : 0 < row.timestamp) :
    liveRel today (sessionStep b row) (pushHeartbeat today st row) := by
  obtain ⟨hd, hsess, hact, hlast, hpos0⟩ := hrel
  obtain ⟨acc, c⟩ := b
  rw [pushHeartbeat_no_reset today st row hd]
  simp only at hsess hact hlast hpos0
  have hgap : (if 0 < st.lastHeartbeatTimestamp then
      row.timestamp - st.lastHeartbeatTimestamp else 0) =
      row.timestamp - c.«end» := by
    rw [hlast, if_pos hpos0]
  by_cases hcond : SESSION_GAP_THRESHOLD_MS < row.timestamp - c.«end»
  · -- gap branch: both sides close the session and open a fresh one
    have hB : sessionStep (acc, c) row =
        (acc ++ [closedSession
          (flushCurrentActivity c c.«end» (decide (0 < c.planningStreak)))],
         initCurrentSession row) := by
      simp only [sessionStep]
      rw [if_pos hcond]
    have hL : processHeartbeat st row.timestamp row.project row.planning =
        { dateKey := st.dateKey
          sessions := st.sessions ++ [closedSession
            (flushCurrentActivity c c.«end» (decide (0 < c.planningStreak)))]
          activeSession := some (toActive (initCurrentSession row))
          lastHeartbeatTimestamp := row.timestamp } := by
      simp only [processHeartbeat]
      rw [if_pos (Or.inr (by rw [hgap]; exact hcond))]
      rw [if_neg (by rw [hact]; exact fun hx => Option.noConfusion hx)]
      simp only [finalizeActiveSession, hact]
      rw [show (toActive c).«end» = c.«end» from rfl,
        show (toActive c).planningStreak = c.planningStreak from rfl,
        toActive_flush, activeToSession_toActive]
      rfl
    rw [hB, hL]
    exact ⟨hd, by rw [hsess], rfl, rfl, hpos⟩
  · -- in-session branch
    have hcondL : ¬ (st.activeSession = none ∨ SESSION_GAP_THRESHOLD_MS <
        (if 0 < st.lastHeartbeatTimestamp then
          row.timestamp - st.lastHeartbeatTimestamp else 0)) := by
      rw [hact, hgap]
      rintro (hx | hx)
      · exact Option.noConfusion hx
      · exact hcond hx
    by_cases hflip : row.planning ≠ decide (0 < c.planningStreak)
    · have hB : sessionStep (acc, c) row =
          (acc, { flushCurrentActivity c row.timestamp
                    (decide (0 < c.planningStreak)) with
                  currentActivityStart := row.timestamp
                  planningStreak := if row.planning then 1 else 0
                  «end» := row.timestamp
                  lastTimestamp := row.timestamp
                  heartbeats := (flushCurrentActivity c row.timestamp
                    (decide (0 < c.planningStreak))).heartbeats + 1
                  projects := addProject (flushCurrentActivity c row.timestamp
                    (decide (0 < c.planningStreak))).projects row.project }) := by
        simp only [sessionStep]
        rw [if_neg hcond, if_pos hflip]
      have hL : processHeartbeat st row.timestamp row.project row.planning =
          { dateKey := st.dateKey
            sessions := st.sessions
            activeSession := some
              { flushActivityTime (toActive c) row.timestamp
                  (decide (0 < (toActive c).planningStreak)) with
                currentActivityStart := row.timestamp
                planningStreak := if row.planning then 1 else 0
                «end» := row.timestamp
                heartbeats := (flushActivityTime (toActive c) row.timestamp
                  (decide (0 < (toActive c).planningStreak))).heartbeats + 1
                projects := addProject (flushActivityTime (toActive c)
                  row.timestamp
                  (decide (0 < (toActive c).planningStreak))).projects
                  row.project }
            lastHeartbeatTimestamp := row.timestamp } := by
        simp only [processHeartbeat]
        rw [if_neg hcondL]
        simp only [hact]
        rw [if_pos (show row.planning ≠
          decide (0 < (toActive c).planningStreak) from hflip)]
      rw [hB, hL]
      refine ⟨hd, by rw [hsess], ?_, rfl, by show (0:Int) < row.timestamp; exact hpos⟩
      simp only [show (toActive c).planningStreak = c.planningStreak from rfl]
      rw [toActive_flush]
      rfl
    · by_cases hp : row.planning = true
      · have hB : sessionStep (acc, c) row =
            (acc, { c with
                    planningStreak := c.planningStreak + 1
                    «end» := row.timestamp
                    lastTimestamp := row.timestamp
                    heartbeats := c.heartbeats + 1
                    projects := addProject c.projects row.project }) := by
          simp only [sessionStep]
          rw [if_neg hcond, if_neg hflip, if_pos hp]
        have hL : processHeartbeat st row.timestamp row.project row.planning =
            { dateKey := st.dateKey
              sessions := st.sessions
              activeSession := some
                { toActive c with
                  planningStreak := (toActive c).planningStreak + 1
                  «end» := row.timestamp
                  heartbeats := (toActive c).heartbeats + 1
                  projects := addProject (toActive c).projects row.project }
              lastHeartbeatTimestamp := row.timestamp } := by
          simp only [processHeartbeat]
          rw [if_neg hcondL]
          simp only [hact]
          rw [if_neg (show ¬ row.planning ≠
            decide (0 < (toActive c).planningStreak) from hflip)]
          rw [if_pos hp]
        rw [hB, hL]
        exact ⟨hd, by rw [hsess], rfl, rfl, by show (0:Int) < row.timestamp; exact hpos⟩
      · have hB : sessionStep (acc, c) row =
            (acc, { c with
                    «end» := row.timestamp
                    lastTimestamp := row.timestamp
                    heartbeats := c.heartbeats + 1
                    projects := addProject c.projects row.project }) := by
          simp only [sessionStep]
          rw [if_neg hcond, if_neg hflip, if_neg hp]
        have hL : processHeartbeat st row.timestamp row.project row.planning =
            { dateKey := st.dateKey
              sessions := st.sessions
              activeSession := some
                { toActive c with
                  «end» := row.timestamp
                  heartbeats := (toActive c).heartbeats + 1
                  projects := addProject (toActive c).projects row.project }
              lastHeartbeatTimestamp := row.timestamp } := by
          simp only [processHeartbeat]
          rw [if_neg hcondL]
          simp only [hact]
          rw [if_neg (show ¬ row.planning ≠
            decide (0 < (toActive c).planningStreak) from hflip)]
          rw [if_neg hp]
        rw [hB, hL]
        exact ⟨hd, by rw [hsess], rfl, rfl, by show (0:Int) < row.timestamp; exact hpos⟩

theorem liveRel_fold (today : DKey) (l : List HB) :
    ∀ (b : List Session × CurrentSession) (st : TodayState),
    liveRel today b st → (∀ hb ∈ l, 0 < hb.timestamp) →
    liveRel today (l.foldl sessionStep b) (pushAll today st l) := by
  induction l with
  | nil => intro b st h _; simpa [pushAll] using h
  | cons hb rest ih =>
    intro b st h hpos
    show liveRel today ((hb :: rest).foldl sessionStep b)
      (pushAll today (pushHeartbeat today st hb) rest)
    simp only [List.foldl_cons]
    exact ih _ _ (liveRel_step today b st hb h (hpos hb (by simp)))
      (fun x hx => hpos x (by simp [hx]))

theorem getSummary_of_rel (today : DKey) (b : List Session × CurrentSession)
    (st : TodayState) (hrel : liveRel today b st) :
    (getSummary today st).2.sessions = b.1 ++ [closedSession
      (flushCurrentActivity b.2 b.2.«end» (decide (0 < b.2.planningStreak)))] := by
  obtain ⟨hd, hsess, hact, hlast, hpos0⟩ := hrel
  have hnoreset : ensureCurrentDate today st = (false, st) := by
    simp [ensureCurrentDate, hd]
  simp only [getSummary, hnoreset]
  rw [if_neg (by simp)]
  simp only [hact, hsess]
  rw [materialize_toActive b.2]

theorem sum_duration_eq (l : List Session)
    (h : ∀ s ∈ l, s.codingMs + s.planningMs = s.durationMs) :
    (l.map Session.durationMs).sum =
      (l.map Session.codingMs).sum + (l.map Session.planningMs).sum := by
  induction l with
  | nil => simp
  | cons s t ih =>
    have hs := h s (by simp)
    have ht := ih (fun x hx => h x (by simp [hx]))
    simp only [List.map_cons, List.sum_cons]
    omega

/-- **C1 (amended).** For every finite heartbeat sequence for one day
with non-decreasing, strictly positive timestamps, feeding the heartbeats
one at a time into `pushHeartbeat` of the live store and then calling
`getSummary` yields exactly the session list of the batch algorithm
`computeSessionsFromHeartbeats`, and the same
`totalCodingMs`/`totalPlanningMs`/`totalTimeMs` as the batch caller
computes from that list.  (Positivity is required because the live
store's gap computation treats `lastHeartbeatTimestamp = 0` as "no
previous heartbeat"; see the counterexample.) -/
theorem live_batch_equivalence (today : DKey) (rows : List HB)
    (hsort : sortedHB rows = true)
    (hpos : ∀ hb ∈ rows, 0 < hb.timestamp) :
    (getSummary today (pushAll today (initialTodayState today) rows)).2.sessions
      = computeSessionsFromHeartbeats rows ∧
    (getSummary today (pushAll today (initialTodayState today) rows)).2.totalCodingMs
      = (batchTotals (computeSessionsFromHeartbeats rows)).1 ∧
    (getSummary today (pushAll today (initialTodayState today) rows)).2.totalPlanningMs
      = (batchTotals (computeSessionsFromHeartbeats rows)).2.1 ∧
    (getSummary today (pushAll today (initialTodayState today) rows)).2.totalTimeMs
      = (batchTotals (computeSessionsFromHeartbeats rows)).2.2 := by
  cases rows with
  | nil =>
    refine ⟨?_, ?_, ?_, ?_⟩ <;>
      simp [pushAll, getSummary, ensureCurrentDate, initialTodayState,
        computeSessionsFromHeartbeats, batchTotals, emptySummary]
  | cons row0 rest =>
    have hrel0 := liveRel_first today row0 (hpos row0 (by simp))
    have hrel := liveRel_fold today rest ([], initCurrentSession row0)
      (pushHeartbeat today (initialTodayState today) row0) hrel0
      (fun x hx => hpos x (by simp [hx]))
    have hpush : pushAll today (initialTodayState today) (row0 :: rest) =
        pushAll today (pushHeartbeat today (initialTodayState today) row0) rest := rfl
    rcases hres : rest.foldl sessionStep ([], initCurrentSession row0) with ⟨acc, c⟩
    rw [hres] at hrel
    have hout : computeSessionsFromHeartbeats (row0 :: rest) =
        acc ++ [closedSession
          (flushCurrentActivity c c.«end» (decide (0 < c.planningStreak)))] := by
      simp only [computeSessionsFromHeartbeats, hres]
    have hsessions := getSummary_of_rel today (acc, c) _ hrel
    simp only at hsessions
    rw [hpush, hout]
    -- additivity of every output session, for the duration totals
    have haddit : ∀ s ∈ acc ++ [closedSession
        (flushCurrentActivity c c.«end» (decide (0 < c.planningStreak)))],
        s.codingMs + s.planningMs = s.durationMs := by
      intro s hs
      rw [← hout] at hs
      obtain ⟨⟨o1, o2, o3, o4, o5, o6⟩, _⟩ :=
        (computeSessions_inv row0 rest (by simpa [sortedHB] using hsort)).1 s hs
      omega
    have hsum := sum_duration_eq _ haddit
    refine ⟨hsessions, ?_, ?_, ?_⟩
    · simp only [getSummary] at hsessions ⊢
      by_cases hroll : (ensureCurrentDate today
        (pushAll today (pushHeartbeat today (initialTodayState today) row0) rest)).1
      · rw [if_pos hroll] at hsessions ⊢
        simp only [emptySummary] at hsessions ⊢
        exact absurd hsessions (by simp)
      · rw [if_neg hroll] at hsessions ⊢
        simp only at hsessions ⊢
        rw [hsessions]
        simp [batchTotals]
    · simp only [getSummary] at hsessions ⊢
      by_cases hroll : (ensureCurrentDate today
        (pushAll today (pushHeartbeat today (initialTodayState today) row0) rest)).1
      · rw [if_pos hroll] at hsessions ⊢
        simp only [emptySummary] at hsessions ⊢
        exact absurd hsessions (by simp)
      · rw [if_neg hroll] at hsessions ⊢
        simp only at hsessions ⊢
        rw [hsessions]
        simp [batchTotals]
    · simp only [getSummary] at hsessions ⊢
      by_cases hroll : (ensureCurrentDate today
        (pushAll today (pushHeartbeat today (initialTodayState today) row0) rest)).1
      · rw [if_pos hroll] at hsessions ⊢
        simp only [emptySummary] at hsessions ⊢
        exact absurd hsessions (by simp)
      · rw [if_neg hroll] at hsessions ⊢
        simp only at hsessions ⊢
        rw [hsessions]
        simp only [batchTotals]
        rw [← hsum]

/-- Counterexample to C1 as literally stated (without the positivity
amendment): two coding heartbeats of the civil day 1970-01-01 (UTC), at
epoch millisecond 0 and at `SESSION_GAP_THRESHOLD_MS + 1`, have
non-decreasing timestamps, yet the live store produces one session where
the batch algorithm produces two — the live store's
`lastHeartbeatTimestamp > 0` sentinel treats the heartbeat at timestamp 0
as "no previous heartbeat" and never sees the gap. -/
theorem live_batch_equivalence_counterexample :
    sortedHB [⟨"a", 0, none, false⟩,
      ⟨"b", SESSION_GAP_THRESHOLD_MS + 1, none, false⟩] = true ∧
    (getSummary ⟨1970, 1, 1⟩ (pushAll ⟨1970, 1, 1⟩
        (initialTodayState ⟨1970, 1, 1⟩)
        [⟨"a", 0, none, false⟩,
         ⟨"b", SESSION_GAP_THRESHOLD_MS + 1, none, false⟩])).2.sessions ≠
      computeSessionsFromHeartbeats [⟨"a", 0, none, false⟩,
        ⟨"b", SESSION_GAP_THRESHOLD_MS + 1, none, false⟩] ∧
    (getSummary ⟨1970, 1, 1⟩ (pushAll ⟨1970, 1, 1⟩
        (initialTodayState ⟨1970, 1, 1⟩)
        [⟨"a", 0, none, false⟩,
         ⟨"b", SESSION_GAP_THRESHOLD_MS + 1, none, false⟩])).2.totalCodingMs ≠
      (batchTotals (computeSessionsFromHeartbeats [⟨"a", 0, none, false⟩,
        ⟨"b", SESSION_GAP_THRESHOLD_MS + 1, none, false⟩])).1 := by
  refine ⟨by decide, by decide, by decide⟩

/-- Witness for `live_batch_equivalence` on a concrete day of positive
timestamps. -/
theorem live_batch_equivalence_witness :
    sortedHB [⟨"a", 100, some "p1", false⟩, ⟨"b", 60100, some "p1", true⟩,
      ⟨"c", 120100, some "p2", true⟩, ⟨"d", 180100, none, false⟩,
      ⟨"e", 1380105, some "p1", true⟩] = true ∧
    (∀ hb ∈ [⟨"a", 100, some "p1", false⟩, ⟨"b", 60100, some "p1", true⟩,
      ⟨"c", 120100, some "p2", true⟩, ⟨"d", 180100, none, false⟩,
      (⟨"e", 1380105, some "p1", true⟩ : HB)], 0 < hb.timestamp) ∧
    (getSummary ⟨2024, 5, 1⟩ (pushAll ⟨2024, 5, 1⟩
        (initialTodayState ⟨2024, 5, 1⟩)
        [⟨"a", 100, some "p1", false⟩, ⟨"b", 60100, some "p1", true⟩,
         ⟨"c", 120100, some "p2", true⟩, ⟨"d", 180100, none, false⟩,
         ⟨"e", 1380105, some "p1", true⟩])).2.sessions =
      computeSessionsFromHeartbeats [⟨"a", 100, some "p1", false⟩,
        ⟨"b", 60100, some "p1", true⟩, ⟨"c", 120100, some "p2", true⟩,
        ⟨"d", 180100, none, false⟩, ⟨"e", 1380105, some "p1", true⟩] :=
  ⟨by decide, by decide,
   (live_batch_equivalence ⟨2024, 5, 1⟩
     [⟨"a", 100, some "p1", false⟩, ⟨"b", 60100, some "p1", true⟩,
      ⟨"c", 120100, some "p2", true⟩, ⟨"d", 180100, none, false⟩,
      ⟨"e", 1380105, some "p1", true⟩] (by decide) (by decide)).1⟩

/-! ## C9: getSummary has no side effect on the store state -/

/-- **C9.** Within the same tracked date, `getSummary` does not mutate
the store: the state after the call is exactly the state before it (so
the closed-session list and every field of the open session are
untouched), repeated queries return the same summary, and any following
`pushHeartbeat` behaves as if the queries had not happened. -/
theorem getSummary_no_side_effect (today : DKey) (st : TodayState)
    (hd : st.dateKey = today) :
    (getSummary today st).1 = st ∧
    getSummary today ((getSummary today st).1) = getSummary today st ∧
    ∀ hb : HB, pushHeartbeat today ((getSummary today st).1) hb =
      pushHeartbeat today st hb := by
  have hnoreset : ensureCurrentDate today st = (false, st) := by
    simp [ensureCurrentDate, hd]
  have hfst : (getSummary today st).1 = st := by
    simp only [getSummary, hnoreset]
    rw [if_neg (by simp)]
  exact ⟨hfst, by rw [hfst], fun hb => by rw [hfst]⟩

/-- Witness for `getSummary_no_side_effect` on a store state reached by
two pushes. -/
theorem getSummary_no_side_effect_witness :
    (pushAll ⟨2024, 5, 1⟩ (initialTodayState ⟨2024, 5, 1⟩)
      [⟨"a", 100, some "p", false⟩, ⟨"b", 60100, none, true⟩]).dateKey =
      ⟨2024, 5, 1⟩ ∧
    (getSummary ⟨2024, 5, 1⟩ (pushAll ⟨2024, 5, 1⟩
      (initialTodayState ⟨2024, 5, 1⟩)
      [⟨"a", 100, some "p", false⟩, ⟨"b", 60100, none, true⟩])).1 =
      pushAll ⟨2024, 5, 1⟩ (initialTodayState ⟨2024, 5, 1⟩)
        [⟨"a", 100, some "p", false⟩, ⟨"b", 60100, none, true⟩] :=
  ⟨by decide,
   (getSummary_no_side_effect ⟨2024, 5, 1⟩
     (pushAll ⟨2024, 5, 1⟩ (initialTodayState ⟨2024, 5, 1⟩)
       [⟨"a", 100, some "p", false⟩, ⟨"b", 60100, none, true⟩])
     (by decide)).1⟩

/-! ## Calendar arithmetic (storage/index.ts date helpers)

The aggregate-cache code of src/unnamed/part_006 (the current
storage/index.ts) manipulates dates through JS `Date` objects:
`getStartOfWeek` reads `getDay()` and shifts with `setDate`, `addDays`
shifts with `setDate`, `getDateKeyFromDate` reads the normalized
components back, and `updateAggregateCachesForDate` parses a
`'YYYY-MM-DD'` key with `split('-')` and rebuilds a `Date`.  JS `Date`
component arithmetic is proleptic-Gregorian day arithmetic: building a
date from components and shifting it by `n` days is addition of `n` on
the days-since-epoch number, and reading components back inverts that
map.  The embedding below therefore works with the bijection between
`DKey` triples and day numbers: `toDays` (civil date to days since
1970-01-01) and `ofDays` (its inverse), the standard era-based
formulas for the proleptic Gregorian calendar. -/

/-- Gregorian leap-year rule (as implemented by JS `Date`). -/
def isLeap (y : Int) : Bool :=
  (decide (y % 4 = 0) && !decide (y % 100 = 0)) || decide (y % 400 = 0)

/-- Length of month `m` of year `y` (as implemented by JS `Date`). -/
def monthLen (y m : Int) : Int :=
  if m = 2 then (if isLeap y then 29 else 28)
  else if m = 4 ∨ m = 6 ∨ m = 9 ∨ m = 11 then 30 else 31

/-- A `DKey` that denotes a real calendar date — the shape of every key
the program builds with `getDateKeyFromDate`/`getDateKeyFromTimestamp`. -/
def ValidDate (k : DKey) : Prop :=
  1 ≤ k.m ∧ k.m ≤ 12 ∧ 1 ≤ k.d ∧ k.d ≤ monthLen k.y k.m

instance (k : DKey) : Decidable (ValidDate k) := by
  unfold ValidDate; infer_instance

/-- Days since 1970-01-01 of a civil date: the day-number embedding of a
JS `Date` at local midnight of `k`. -/
def toDays (k : DKey) : Int :=
  let y := if k.m ≤ 2 then k.y - 1 else k.y
  let era := y / 400
  let yoe := y - era * 400
  let mp := if k.m ≤ 2 then k.m + 9 else k.m - 3
  let doy := (153 * mp + 2) / 5 + k.d - 1
  let doe := yoe * 365 + yoe / 4 - yoe / 100 + doy
  era * 146097 + doe - 719468

/-- Stage of the civil-from-days pipeline: era index of day `z`. -/
def era0 (z : Int) : Int := (z + 719468) / 146097

/-- Stage of the civil-from-days pipeline: day within the 400-year era. -/
def doe0 (z : Int) : Int := z + 719468 - era0 z * 146097

/-- Stage of the civil-from-days pipeline: century within the era. -/
def cent0 (z : Int) : Int := (4 * doe0 z + 3) / 146097

/-- Stage of the civil-from-days pipeline: day within the century. -/
def dc0 (z : Int) : Int := doe0 z - 146097 * cent0 z / 4

/-- Stage of the civil-from-days pipeline: year within the century. -/
def yy0 (z : Int) : Int := (4 * dc0 z + 3) / 1461

/-- Stage of the civil-from-days pipeline: day of the (March-based) year. -/
def dy0 (z : Int) : Int := dc0 z - 1461 * yy0 z / 4

/-- Stage of the civil-from-days pipeline: year within the era. -/
def yoe0 (z : Int) : Int := 100 * cent0 z + yy0 z

/-- Stage of the civil-from-days pipeline: March-based month index. -/
def mp0 (z : Int) : Int := (5 * dy0 z + 2) / 153

/-- Stage of the civil-from-days pipeline: day of month. -/
def dd0 (z : Int) : Int := dy0 z - (153 * mp0 z + 2) / 5 + 1

/-- Stage of the civil-from-days pipeline: calendar month. -/
def mm0 (z : Int) : Int := if mp0 z < 10 then mp0 z + 3 else mp0 z - 9

/-- Civil date of a day number: inverse of `toDays`, i.e. the components
a JS `Date` normalizes an out-of-range component arithmetic to. -/
def ofDays (z : Int) : DKey :=
  ⟨if mm0 z ≤ 2 then era0 z * 400 + yoe0 z + 1 else era0 z * 400 + yoe0 z,
   mm0 z, dd0 z⟩

/-- The `addDays` helper of storage/index.ts: component date plus `n`
days with JS `Date` normalization. -/
def addDays (k : DKey) (n : Int) : DKey := ofDays (toDays k + n)

/-- The `getStartOfWeek` helper of storage/index.ts: `getDay()` is the
weekday (0 = Sunday) of the day number — 1970-01-01 was a Thursday, so
`getDay = (days + 4) mod 7` — and the Monday of the week is reached by
`setDate(getDate() + offset)` with `offset = day == 0 ? -6 : 1 - day`. -/
def getStartOfWeek (k : DKey) : DKey :=
  let day := (toDays k + 4) % 7
  let offset := if day = 0 then -6 else 1 - day
  ofDays (toDays k + offset)

/-- A date key that falls on a Monday (`getDay() == 1`). -/
def isMonday (k : DKey) : Prop := (toDays k + 4) % 7 = 1

instance (k : DKey) : Decidable (isMonday k) := by
  unfold isMonday; infer_instance

theorem ediv1461 (w : Int) : 1461 * w / 4 = 365 * w + w / 4 := by
  rw [show (1461 : Int) * w = w + 365 * w * 4 by ring]
  rw [Int.add_mul_ediv_right _ _ (by norm_num : (4:Int) ≠ 0)]
  ring

theorem ediv146097 (w : Int) : 146097 * w / 4 = 36524 * w + w / 4 := by
  rw [show (146097 : Int) * w = w + 36524 * w * 4 by ring]
  rw [Int.add_mul_ediv_right _ _ (by norm_num : (4:Int) ≠ 0)]
  ring

theorem doe0_bounds (z : Int) : 0 ≤ doe0 z ∧ doe0 z ≤ 146096 := by
  unfold doe0 era0
  omega

theorem cent0_bounds (z : Int) : 0 ≤ cent0 z ∧ cent0 z ≤ 3 := by
  have := doe0_bounds z
  unfold cent0
  omega

theorem dc0_eq (z : Int) : dc0 z = doe0 z - 36524 * cent0 z := by
  have := cent0_bounds z
  unfold dc0
  rw [ediv146097 (cent0 z)]
  omega

theorem dc0_bounds (z : Int) :
    0 ≤ dc0 z ∧ dc0 z ≤ 36524 ∧ (dc0 z = 36524 → cent0 z = 3) := by
  have h1 := doe0_bounds z
  have h2 := dc0_eq z
  have h3 : cent0 z = (4 * doe0 z + 3) / 146097 := rfl
  omega

theorem yy0_bounds (z : Int) :
    0 ≤ yy0 z ∧ yy0 z ≤ 99 ∧ (dc0 z = 36524 → yy0 z = 99) := by
  have h1 := dc0_bounds z
  have h2 : yy0 z = (4 * dc0 z + 3) / 1461 := rfl
  omega

theorem dy0_eq (z : Int) : dy0 z = dc0 z - (365 * yy0 z + yy0 z / 4) := by
  unfold dy0
  rw [ediv1461 (yy0 z)]

theorem dy0_bounds (z : Int) :
    0 ≤ dy0 z ∧ dy0 z ≤ 365 ∧ (dy0 z = 365 → yy0 z % 4 = 3) := by
  have h1 := dc0_bounds z
  have h2 := dy0_eq z
  have h3 : yy0 z = (4 * dc0 z + 3) / 1461 := rfl
  omega

theorem mp0_bounds (z : Int) : 0 ≤ mp0 z ∧ mp0 z ≤ 11 := by
  have h1 := dy0_bounds z
  have h2 : mp0 z = (5 * dy0 z + 2) / 153 := rfl
  omega

/-- Round trip: converting a day number to a civil date and back is the
identity. -/
theorem toDays_ofDays (z : Int) : toDays (ofDays z) = z := by
  have hdoeB := doe0_bounds z
  have hcB := cent0_bounds z
  have hdcE := dc0_eq z
  have hdcB := dc0_bounds z
  have hyyB := yy0_bounds z
  have hdyE := dy0_eq z
  have hdyB := dy0_bounds z
  have hmpB := mp0_bounds z
  have hyoe : yoe0 z = 100 * cent0 z + yy0 z := rfl
  have hdd : dd0 z = dy0 z - (153 * mp0 z + 2) / 5 + 1 := rfl
  have hera : era0 z = (z + 719468) / 146097 := rfl
  have hdoe : doe0 z = z + 719468 - era0 z * 146097 := rfl
  have hyoeB : 0 ≤ yoe0 z ∧ yoe0 z ≤ 399 := by omega
  have h4 : (100 * cent0 z + yy0 z) / 4 = 25 * cent0 z + yy0 z / 4 := by
    rw [show (100 : Int) * cent0 z + yy0 z = yy0 z + 25 * cent0 z * 4 by ring]
    rw [Int.add_mul_ediv_right _ _ (by norm_num : (4:Int) ≠ 0)]
    ring
  have h100 : (100 * cent0 z + yy0 z) / 100 = cent0 z + yy0 z / 100 := by
    rw [show (100 : Int) * cent0 z + yy0 z = yy0 z + cent0 z * 100 by ring]
    rw [Int.add_mul_ediv_right _ _ (by norm_num : (100:Int) ≠ 0)]
    ring
  have h400 : (era0 z * 400 + yoe0 z) / 400 = era0 z + yoe0 z / 400 := by
    rw [show era0 z * 400 + yoe0 z = yoe0 z + era0 z * 400 by ring]
    rw [Int.add_mul_ediv_right _ _ (by norm_num : (400:Int) ≠ 0)]
    ring
  have hi0 : yoe0 z / 400 = 0 := by omega
  have hg : (era0 z * 400 + yoe0 z) / 400 = era0 z := by
    rw [h400, hi0]; ring
  by_cases hmp10 : mp0 z < 10
  · have hm : mm0 z = mp0 z + 3 := by unfold mm0; rw [if_pos hmp10]
    have hm2 : ¬ mm0 z ≤ 2 := by omega
    simp only [ofDays, toDays]
    rw [if_neg hm2, if_neg hm2, if_neg hm2]
    rw [hg, show era0 z * 400 + yoe0 z - era0 z * 400 = yoe0 z from by ring]
    rw [hyoe, h4, h100, hm,
      show mp0 z + 3 - 3 = mp0 z from by ring]
    omega
  · have hm : mm0 z = mp0 z - 9 := by unfold mm0; rw [if_neg hmp10]
    have hm2 : mm0 z ≤ 2 := by omega
    simp only [ofDays, toDays]
    rw [if_pos hm2, if_pos hm2, if_pos hm2]
    rw [show era0 z * 400 + yoe0 z + 1 - 1 = era0 z * 400 + yoe0 z from by ring]
    rw [hg, show era0 z * 400 + yoe0 z - era0 z * 400 = yoe0 z from by ring]
    rw [hyoe, h4, h100, hm,
      show mp0 z - 9 + 9 = mp0 z from by ring]
    omega

theorem monthLen_bounds (y m : Int) : 28 ≤ monthLen y m ∧ monthLen y m ≤ 31 := by
  unfold monthLen
  split
  · split <;> omega
  · split <;> omega

theorem toDays_closed (k : DKey) (Y mp : Int)
    (hY : Y = if k.m ≤ 2 then k.y - 1 else k.y)
    (hmp : mp = if k.m ≤ 2 then k.m + 9 else k.m - 3) :
    toDays k = 365 * Y + Y / 4 - Y / 100 + Y / 400 + (153 * mp + 2) / 5 + k.d - 1 - 719468 := by
  simp only [toDays]
  rw [← hY, ← hmp]
  have b1 : (Y - Y / 400 * 400) / 4 = Y / 4 - 100 * (Y / 400) := by
    rw [show Y - Y / 400 * 400 = Y + -(100 * (Y / 400)) * 4 by ring]
    rw [Int.add_mul_ediv_right _ _ (by norm_num : (4:Int) ≠ 0)]
    ring
  have b2 : (Y - Y / 400 * 400) / 100 = Y / 100 - 4 * (Y / 400) := by
    rw [show Y - Y / 400 * 400 = Y + -(4 * (Y / 400)) * 100 by ring]
    rw [Int.add_mul_ediv_right _ _ (by norm_num : (100:Int) ≠ 0)]
    ring
  omega

theorem leap_iff (w : Int) :
    isLeap w = true ↔ ((w % 4 = 0 ∧ ¬ w % 100 = 0) ∨ w % 400 = 0) := by
  simp [isLeap]

theorem yearDays_mono (Y Y' : Int) (h : Y ≤ Y') :
    365 * Y + Y / 4 - Y / 100 + Y / 400 ≤ 365 * Y' + Y' / 4 - Y' / 100 + Y' / 400 := by
  omega

theorem yearDays_succ (Y : Int) :
    365 * Y + Y / 4 - Y / 100 + Y / 400 + 365 + (if isLeap (Y + 1) = true then 1 else 0)
      ≤ 365 * (Y + 1) + (Y + 1) / 4 - (Y + 1) / 100 + (Y + 1) / 400 := by
  by_cases hL : isLeap (Y + 1) = true
  · rw [if_pos hL]
    rw [leap_iff] at hL
    omega
  · rw [if_neg hL]
    omega

theorem doy_bounds (k : DKey) (Y mp : Int)
    (hY : Y = if k.m ≤ 2 then k.y - 1 else k.y)
    (hmp : mp = if k.m ≤ 2 then k.m + 9 else k.m - 3)
    (hv : ValidDate k) :
    0 ≤ mp ∧ mp ≤ 11 ∧
    1 ≤ (153 * mp + 2) / 5 + k.d ∧
    (153 * mp + 2) / 5 + k.d ≤ (153 * (mp + 1) + 2) / 5 ∧
    (153 * mp + 2) / 5 + k.d ≤ 365 + (if isLeap (Y + 1) = true then 1 else 0) := by
  obtain ⟨h1, h2, h3, h4⟩ := hv
  by_cases hm2 : k.m ≤ 2
  · rw [if_pos hm2] at hY hmp
    have hcase : k.m = 1 ∨ k.m = 2 := by omega
    rcases hcase with hc | hc
    · rw [hc] at hmp h4
      simp only [monthLen] at h4
      norm_num at h4 hmp
      subst hmp
      split <;> omega
    · rw [hc] at hmp h4
      simp only [monthLen] at h4
      norm_num at h4 hmp
      subst hmp
      have hyY : k.y = Y + 1 := by omega
      rw [hyY] at h4
      by_cases hL : isLeap (Y + 1) = true
      · rw [if_pos hL] at h4 ⊢
        omega
      · rw [if_neg hL] at h4 ⊢
        omega
  · rw [if_neg hm2] at hY hmp
    have hcase : k.m = 3 ∨ k.m = 4 ∨ k.m = 5 ∨ k.m = 6 ∨ k.m = 7 ∨ k.m = 8 ∨
        k.m = 9 ∨ k.m = 10 ∨ k.m = 11 ∨ k.m = 12 := by omega
    have hsplit : (153 * mp + 2) / 5 + k.d ≤ 365 →
        (153 * mp + 2) / 5 + k.d ≤ 365 + (if isLeap (Y + 1) = true then 1 else 0) := by
      split <;> omega
    rcases hcase with hc | hc | hc | hc | hc | hc | hc | hc | hc | hc <;>
      (rw [hc] at hmp h4; simp only [monthLen] at h4; norm_num at h4 hmp;
       subst hmp; refine ⟨by omega, by omega, by omega, by omega, hsplit (by omega)⟩)

/-- Strict monotonicity of `toDays` on valid dates, in lexicographic
component order — the reason string comparison of `'YYYY-MM-DD'` keys
agrees with day order. -/
theorem toDays_strictMono (a b : DKey) (ha : ValidDate a) (hb : ValidDate b)
    (hlt : a.y < b.y ∨ (a.y = b.y ∧ (a.m < b.m ∨ (a.m = b.m ∧ a.d < b.d)))) :
    toDays a < toDays b := by
  have hca := toDays_closed a _ _ rfl rfl
  have hcb := toDays_closed b _ _ rfl rfl
  have hda := doy_bounds a _ _ rfl rfl ha
  have hdb := doy_bounds b _ _ rfl rfl hb
  have ha1 : 1 ≤ a.m := ha.1
  have ha2 : a.m ≤ 12 := ha.2.1
  have ha3 : 1 ≤ a.d := ha.2.2.1
  have hb1 : 1 ≤ b.m := hb.1
  have hb2 : b.m ≤ 12 := hb.2.1
  have hb3 : 1 ≤ b.d := hb.2.2.1
  by_cases h2a : a.m ≤ 2 <;> by_cases h2b : b.m ≤ 2
  · rw [if_pos h2a, if_pos h2a] at hca
    rw [if_pos h2a, if_pos h2a] at hda
    rw [if_pos h2b, if_pos h2b] at hcb
    rw [if_pos h2b, if_pos h2b] at hdb
    rcases hlt with hy | hrest
    · have hFs := yearDays_succ (a.y - 1)
      have hFm := yearDays_mono (a.y - 1 + 1) (b.y - 1) (by omega)
      omega
    · obtain ⟨hy, hm | ⟨hm, hd⟩⟩ := hrest
      · rw [hy] at hca hda
        have hGm : (153 * (a.m + 9 + 1) + 2) / 5 ≤ (153 * (b.m + 9) + 2) / 5 := by
          omega
        omega
      · omega
  · rw [if_pos h2a, if_pos h2a] at hca
    rw [if_pos h2a, if_pos h2a] at hda
    rw [if_neg h2b, if_neg h2b] at hcb
    rw [if_neg h2b, if_neg h2b] at hdb
    have hFs := yearDays_succ (a.y - 1)
    rcases hlt with hy | hrest
    · have hFm := yearDays_mono (a.y - 1 + 1) b.y (by omega)
      omega
    · omega
  · rw [if_neg h2a, if_neg h2a] at hca
    rw [if_neg h2a, if_neg h2a] at hda
    rw [if_pos h2b, if_pos h2b] at hcb
    rw [if_pos h2b, if_pos h2b] at hdb
    rcases hlt with hy | hrest
    · by_cases hyy : b.y = a.y + 1
      · rw [hyy] at hcb hdb
        rw [show (a.y + 1 - 1 : Int) = a.y from by ring] at hcb hdb
        have hGm : (153 * (a.m - 3 + 1) + 2) / 5 ≤ (153 * (b.m + 9) + 2) / 5 := by
          omega
        omega
      · have hFs := yearDays_succ a.y
        have hFm := yearDays_mono (a.y + 1) (b.y - 1) (by omega)
        omega
    · omega
  · rw [if_neg h2a, if_neg h2a] at hca
    rw [if_neg h2a, if_neg h2a] at hda
    rw [if_neg h2b, if_neg h2b] at hcb
    rw [if_neg h2b, if_neg h2b] at hdb
    rcases hlt with hy | hrest
    · have hFs := yearDays_succ a.y
      have hFm := yearDays_mono (a.y + 1) b.y (by omega)
      omega
    · obtain ⟨hy, hm | ⟨hm, hd⟩⟩ := hrest
      · rw [hy] at hca hda
        have hGm : (153 * (a.m - 3 + 1) + 2) / 5 ≤ (153 * (b.m - 3) + 2) / 5 := by
          omega
        omega
      · omega

/-- The `'YYYY-MM-DD'` string order (SQL `BETWEEN`) agrees with day-number
order on valid dates. -/
theorem toDays_le_iff (a b : DKey) (ha : ValidDate a) (hb : ValidDate b) :
    DKey.le a b ↔ toDays a ≤ toDays b := by
  constructor
  · intro h
    by_cases heq : a = b
    · subst heq; exact le_refl _
    · have hco : ¬ (a.y = b.y ∧ a.m = b.m ∧ a.d = b.d) := by
        intro hc
        apply heq
        cases a; cases b
        simp only [DKey.mk.injEq]
        exact ⟨hc.1, hc.2.1, hc.2.2⟩
      unfold DKey.le at h
      have hlt : a.y < b.y ∨ (a.y = b.y ∧ (a.m < b.m ∨ (a.m = b.m ∧ a.d < b.d))) := by
        omega
      exact le_of_lt (toDays_strictMono a b ha hb hlt)
  · intro h
    by_contra hle
    unfold DKey.le at hle
    push_neg at hle
    have hlt : b.y < a.y ∨ (b.y = a.y ∧ (b.m < a.m ∨ (b.m = a.m ∧ b.d < a.d))) := by
      omega
    have := toDays_strictMono b a hb ha hlt
    omega

theorem toDays_inj (a b : DKey) (ha : ValidDate a) (hb : ValidDate b)
    (h : toDays a = toDays b) : a = b := by
  by_contra hne
  have hco : ¬ (a.y = b.y ∧ a.m = b.m ∧ a.d = b.d) := by
    intro hc
    apply hne
    cases a; cases b
    simp only [DKey.mk.injEq]
    exact ⟨hc.1, hc.2.1, hc.2.2⟩
  have hlex : (a.y < b.y ∨ (a.y = b.y ∧ (a.m < b.m ∨ (a.m = b.m ∧ a.d < b.d)))) ∨
      (b.y < a.y ∨ (b.y = a.y ∧ (b.m < a.m ∨ (b.m = a.m ∧ b.d < a.d)))) := by
    omega
  rcases hlex with h1 | h1
  · have := toDays_strictMono a b ha hb h1; omega
  · have := toDays_strictMono b a hb ha h1; omega

/-- Every day number converts to a real calendar date. -/
theorem valid_ofDays (z : Int) : ValidDate (ofDays z) := by
  have hdoeB := doe0_bounds z
  have hcB := cent0_bounds z
  have hdcE := dc0_eq z
  have hdcB := dc0_bounds z
  have hyyB := yy0_bounds z
  have hdyE := dy0_eq z
  have hdyB := dy0_bounds z
  have hmpB := mp0_bounds z
  have hyoe : yoe0 z = 100 * cent0 z + yy0 z := rfl
  have hdd : dd0 z = dy0 z - (153 * mp0 z + 2) / 5 + 1 := rfl
  have hmp0 : mp0 z = (5 * dy0 z + 2) / 153 := rfl
  have hyyC : yy0 z = (4 * dc0 z + 3) / 1461 := rfl
  refine ⟨?_, ?_, ?_, ?_⟩
  · show (1 : Int) ≤ mm0 z
    unfold mm0; split <;> omega
  · show mm0 z ≤ 12
    unfold mm0; split <;> omega
  · show (1 : Int) ≤ dd0 z
    omega
  · show dd0 z ≤ monthLen (if mm0 z ≤ 2 then era0 z * 400 + yoe0 z + 1
      else era0 z * 400 + yoe0 z) (mm0 z)
    have hmpcases : mp0 z = 0 ∨ mp0 z = 1 ∨ mp0 z = 2 ∨ mp0 z = 3 ∨ mp0 z = 4 ∨
        mp0 z = 5 ∨ mp0 z = 6 ∨ mp0 z = 7 ∨ mp0 z = 8 ∨ mp0 z = 9 ∨
        mp0 z = 10 ∨ mp0 z = 11 := by omega
    rcases hmpcases with hc|hc|hc|hc|hc|hc|hc|hc|hc|hc|hc|hc
    case _ =>
      have hmm : mm0 z = 3 := by unfold mm0; rw [hc]; decide
      rw [hc] at hdd hmp0
      rw [hmm, if_neg (by norm_num : ¬ (3:Int) ≤ 2)]
      simp only [monthLen]
      norm_num
      omega
    case _ =>
      have hmm : mm0 z = 4 := by unfold mm0; rw [hc]; decide
      rw [hc] at hdd hmp0
      rw [hmm, if_neg (by norm_num : ¬ (4:Int) ≤ 2)]
      simp only [monthLen]
      norm_num
      omega
    case _ =>
      have hmm : mm0 z = 5 := by unfold mm0; rw [hc]; decide
      rw [hc] at hdd hmp0
      rw [hmm, if_neg (by norm_num : ¬ (5:Int) ≤ 2)]
      simp only [monthLen]
      norm_num
      omega
    case _ =>
      have hmm : mm0 z = 6 := by unfold mm0; rw [hc]; decide
      rw [hc] at hdd hmp0
      rw [hmm, if_neg (by norm_num : ¬ (6:Int) ≤ 2)]
      simp only [monthLen]
      norm_num
      omega
    case _ =>
      have hmm : mm0 z = 7 := by unfold mm0; rw [hc]; decide
      rw [hc] at hdd hmp0
      rw [hmm, if_neg (by norm_num : ¬ (7:Int) ≤ 2)]
      simp only [monthLen]
      norm_num
      omega
    case _ =>
      have hmm : mm0 z = 8 := by unfold mm0; rw [hc]; decide
      rw [hc] at hdd hmp0
      rw [hmm, if_neg (by norm_num : ¬ (8:Int) ≤ 2)]
      simp only [monthLen]
      norm_num
      omega
    case _ =>
      have hmm : mm0 z = 9 := by unfold mm0; rw [hc]; decide
      rw [hc] at hdd hmp0
      rw [hmm, if_neg (by norm_num : ¬ (9:Int) ≤ 2)]
      simp only [monthLen]
      norm_num
      omega
    case _ =>
      have hmm : mm0 z = 10 := by unfold mm0; rw [hc]; decide
      rw [hc] at hdd hmp0
      rw [hmm, if_neg (by norm_num : ¬ (10:Int) ≤ 2)]
      simp only [monthLen]
      norm_num
      omega
    case _ =>
      have hmm : mm0 z = 11 := by unfold mm0; rw [hc]; decide
      rw [hc] at hdd hmp0
      rw [hmm, if_neg (by norm_num : ¬ (11:Int) ≤ 2)]
      simp only [monthLen]
      norm_num
      omega
    case _ =>
      have hmm : mm0 z = 12 := by unfold mm0; rw [hc]; decide
      rw [hc] at hdd hmp0
      rw [hmm, if_neg (by norm_num : ¬ (12:Int) ≤ 2)]
      simp only [monthLen]
      norm_num
      omega
    case _ =>
      have hmm : mm0 z = 1 := by unfold mm0; rw [hc]; decide
      rw [hc] at hdd hmp0
      rw [hmm, if_pos (by norm_num : (1:Int) ≤ 2)]
      simp only [monthLen]
      norm_num
      omega
    case _ =>
      have hmm : mm0 z = 2 := by unfold mm0; rw [hc]; decide
      rw [hc] at hdd hmp0
      rw [hmm, if_pos (by norm_num : (2:Int) ≤ 2)]
      simp only [monthLen, if_pos rfl]
      by_cases hL : isLeap (era0 z * 400 + yoe0 z + 1) = true
      · rw [if_pos hL]
        omega
      · rw [if_neg hL]
        rw [leap_iff] at hL
        push_neg at hL
        omega

/-- Round trip: a valid civil date survives conversion to a day number
and back. -/
theorem ofDays_toDays (k : DKey) (hv : ValidDate k) : ofDays (toDays k) = k :=
  toDays_inj _ _ (valid_ofDays _) hv (toDays_ofDays _)

theorem toDays_addDays (k : DKey) (n : Int) : toDays (addDays k n) = toDays k + n := by
  unfold addDays; rw [toDays_ofDays]

theorem toDays_getStartOfWeek (k : DKey) :
    toDays (getStartOfWeek k) =
      toDays k + (if (toDays k + 4) % 7 = 0 then -6 else 1 - (toDays k + 4) % 7) := by
  unfold getStartOfWeek
  rw [toDays_ofDays]

theorem isMonday_getStartOfWeek (k : DKey) : isMonday (getStartOfWeek k) := by
  unfold isMonday
  rw [toDays_getStartOfWeek]
  split <;> omega

theorem valid_getStartOfWeek (k : DKey) : ValidDate (getStartOfWeek k) :=
  valid_ofDays _

theorem valid_addDays (k : DKey) (n : Int) : ValidDate (addDays k n) :=
  valid_ofDays _

/-- Week ranges partition the valid dates: a date lies in the 7-day span
starting at a Monday `wk` exactly when `wk` is its own week start. -/
theorem week_partition (k wk : DKey) (hk : ValidDate k) (hwk : ValidDate wk)
    (hm : isMonday wk) :
    (DKey.le wk k ∧ DKey.le k (addDays wk 6)) ↔ getStartOfWeek k = wk := by
  have h1 : toDays (addDays wk 6) = toDays wk + 6 := toDays_addDays wk 6
  have hvA : ValidDate (addDays wk 6) := valid_addDays wk 6
  rw [toDays_le_iff wk k hwk hk, toDays_le_iff k (addDays wk 6) hk hvA, h1]
  unfold isMonday at hm
  constructor
  · rintro ⟨hl, hr⟩
    have hoff : toDays k +
        (if (toDays k + 4) % 7 = 0 then -6 else 1 - (toDays k + 4) % 7) = toDays wk := by
      split <;> omega
    have : getStartOfWeek k = ofDays (toDays wk) := by
      show ofDays (toDays k +
        (if (toDays k + 4) % 7 = 0 then -6 else 1 - (toDays k + 4) % 7)) = ofDays (toDays wk)
      rw [hoff]
    rw [this, ofDays_toDays wk hwk]
  · intro h
    have h2 : toDays wk = toDays k +
        (if (toDays k + 4) % 7 = 0 then -6 else 1 - (toDays k + 4) % 7) := by
      rw [← h, toDays_getStartOfWeek]
    constructor
    · revert h2; split <;> (intro h2; omega)
    · revert h2; split <;> (intro h2; omega)

/-- Year ranges contain exactly the dates of that year: the SQL range
`year-01-01 BETWEEN year-12-31` captures a valid key exactly when its
year component matches. -/
theorem year_containment (k : DKey) (y : Int) (hk : ValidDate k) :
    (DKey.le ⟨y, 1, 1⟩ k ∧ DKey.le k ⟨y, 12, 31⟩) ↔ k.y = y := by
  have h31 := monthLen_bounds k.y k.m
  obtain ⟨h1, h2, h3, h4⟩ := hk
  unfold DKey.le
  dsimp only
  constructor
  · intro h; omega
  · intro h; omega

/-! ## Aggregate cache (src/unnamed/part_006 lines 404–539)

The two SQLite tables that matter here are
`daily_sessions_cache(date_key PRIMARY KEY, total_time_ms, ...)` and
`aggregate_sessions_cache(range_key PRIMARY KEY, total_time_ms, ...)`,
modelled as association lists keyed by `DKey` and `RKey`.  A `range_key`
string is either `week:YYYY-MM-DD` (the Monday starting the week) or
`year:YYYY`, modelled by the two `RKey` constructors.  `SELECT` by
primary key is association-list lookup, `INSERT OR REPLACE` / `UPDATE`
by primary key is in-place replacement (appending when absent), and
`SELECT COALESCE(SUM(total_time_ms), 0) ... WHERE date_key BETWEEN s AND e`
is the filtered sum `dailySum` (string `BETWEEN` on zero-padded keys is
`DKey.le` both sides). -/

/-- A `range_key` of aggregate_sessions_cache: `week:K` or `year:Y`. -/
inductive RKey where
  | week : DKey → RKey
  | year : Int → RKey
deriving Repr, DecidableEq

/-- The state touched by the aggregate-cache code: the daily cache
(`date_key ↦ total_time_ms`) and the aggregate cache
(`range_key ↦ total_time_ms`). -/
structure AggDB where
  daily : List (DKey × Int)
  agg : List (RKey × Int)
deriving Repr, DecidableEq

/-- The `getDailyCacheTotal` query of storage/index.ts:
`SELECT total_time_ms FROM daily_sessions_cache WHERE date_key = ?`,
`null` when the row is absent. -/
def getDailyCacheTotal (l : List (DKey × Int)) (k : DKey) : Option Int :=
  match l with
  | [] => none
  | p :: rest => if p.1 = k then some p.2 else getDailyCacheTotal rest k

/-- `INSERT OR REPLACE INTO daily_sessions_cache` for one `date_key`. -/
def upsertD (l : List (DKey × Int)) (k : DKey) (v : Int) : List (DKey × Int) :=
  match l with
  | [] => [(k, v)]
  | p :: rest => if p.1 = k then (k, v) :: rest else p :: upsertD rest k v

/-- SELECT total_time_ms FROM aggregate_sessions_cache WHERE range_key = ?. -/
def lookupAgg (l : List (RKey × Int)) (r : RKey) : Option Int :=
  match l with
  | [] => none
  | p :: rest => if p.1 = r then some p.2 else lookupAgg rest r

/-- `INSERT OR REPLACE` / keyed `UPDATE` on aggregate_sessions_cache. -/
def upsertAgg (l : List (RKey × Int)) (r : RKey) (v : Int) : List (RKey × Int) :=
  match l with
  | [] => [(r, v)]
  | p :: rest => if p.1 = r then (r, v) :: rest else p :: upsertAgg rest r v

/-- The total of `getDailyCacheSumAndCount` of storage/index.ts:
`SELECT COALESCE(SUM(total_time_ms), 0) FROM daily_sessions_cache
WHERE date_key BETWEEN startKey AND endKey`. -/
def dailySum (l : List (DKey × Int)) (s e : DKey) : Int :=
  match l with
  | [] => 0
  | p :: rest => (if DKey.le s p.1 ∧ DKey.le p.1 e then p.2 else 0) + dailySum rest s e

/-- The `upsertAggregateCache` function of storage/index.ts: rescan the
daily cache over the range and store (and return) that total. -/
def upsertAggregateCache (db : AggDB) (r : RKey) (s e : DKey) : AggDB × Int :=
  let totalMs := dailySum db.daily s e
  (⟨db.daily, upsertAgg db.agg r totalMs⟩, totalMs)

/-- The `updateAggregateWithDelta` function of storage/index.ts: add the
delta in place when the aggregate entry exists, otherwise recompute the
range fresh via `upsertAggregateCache`. -/
def updateAggregateWithDelta (db : AggDB) (r : RKey) (s e : DKey) (deltaMs : Int) : AggDB :=
  match lookupAgg db.agg r with
  | some cached => ⟨db.daily, upsertAgg db.agg r (cached + deltaMs)⟩
  | none => (upsertAggregateCache db r s e).1

/-- The `getAggregateTotalMs` function of storage/index.ts: return the
cached total on a hit, otherwise compute, store and return the rescan
total (the read writes on a miss). -/
def getAggregateTotalMs (db : AggDB) (r : RKey) (s e : DKey) : AggDB × Int :=
  match lookupAgg db.agg r with
  | some cached => (db, cached)
  | none => upsertAggregateCache db r s e

/-- The `updateAggregateCachesForDate` function of storage/index.ts:
no-op on zero delta, otherwise apply the delta to the week range of
`dateKey` (keyed by its Monday) and to its year range. -/
def updateAggregateCachesForDate (db : AggDB) (k : DKey)
    (previousTotalMs newTotalMs : Int) : AggDB :=
  let deltaMs := newTotalMs - previousTotalMs
  if deltaMs = 0 then db
  else
    let weekStart := getStartOfWeek k
    let weekEnd := addDays weekStart 6
    let db1 := updateAggregateWithDelta db (RKey.week weekStart) weekStart weekEnd deltaMs
    updateAggregateWithDelta db1 (RKey.year k.y) ⟨k.y, 1, 1⟩ ⟨k.y, 12, 31⟩ deltaMs

/-- One daily-cache total change followed by the delta update, with the
previous total captured as the callers do (`getDaySessions` lines
751–775, `recalculateAllCachedDays`):
`previousTotalMs = (await getDailyCacheTotal(db, dateKey)) ?? 0`, then
`INSERT OR REPLACE` of the day row, then
`updateAggregateCachesForDate(db, dateKey, previousTotalMs, newTotalMs)`. -/
def dailyChange (db : AggDB) (k : DKey) (newTotalMs : Int) : AggDB :=
  let previousTotalMs := (getDailyCacheTotal db.daily k).getD 0
  let db1 : AggDB := ⟨upsertD db.daily k newTotalMs, db.agg⟩
  updateAggregateCachesForDate db1 k previousTotalMs newTotalMs

/-- The daily-cache range a `range_key` denotes (the `startKey`/`endKey`
every call site passes along with that key). -/
def rangeOf : RKey → DKey × DKey
  | RKey.week w => (w, addDays w 6)
  | RKey.year y => (⟨y, 1, 1⟩, ⟨y, 12, 31⟩)

/-- Every stored aggregate total equals the full rescan of its range. -/
def aggOK (db : AggDB) : Prop :=
  ∀ r v, lookupAgg db.agg r = some v →
    v = dailySum db.daily (rangeOf r).1 (rangeOf r).2

/-- Every stored week key is the Monday of a real week (all call sites
build week keys with `getStartOfWeek`). -/
def aggWF (db : AggDB) : Prop :=
  ∀ w v, lookupAgg db.agg (RKey.week w) = some v → ValidDate w ∧ isMonday w

/-- Every daily-cache key is a real calendar date (keys come from
`getDateKeyFromTimestamp`/`getDateKeyFromDate`). -/
def dailyWF (db : AggDB) : Prop := ∀ p ∈ db.daily, ValidDate p.1

/-- The aggregate-cache coherence invariant. -/
def AggInv (db : AggDB) : Prop := aggOK db ∧ aggWF db ∧ dailyWF db

theorem lookupAgg_upsertAgg_self (l : List (RKey × Int)) (r : RKey) (v : Int) :
    lookupAgg (upsertAgg l r v) r = some v := by
  induction l with
  | nil => simp [upsertAgg, lookupAgg]
  | cons p rest ih =>
    by_cases hp : p.1 = r
    · simp [upsertAgg, hp, lookupAgg]
    · simp [upsertAgg, hp, lookupAgg, ih]

theorem lookupAgg_upsertAgg_ne (l : List (RKey × Int)) (r r' : RKey) (v : Int)
    (hne : r' ≠ r) : lookupAgg (upsertAgg l r v) r' = lookupAgg l r' := by
  have hrr : (r = r') = False := by
    apply eq_false; intro h; exact hne h.symm
  induction l with
  | nil => simp [upsertAgg, lookupAgg, hrr]
  | cons p rest ih =>
    by_cases hp : p.1 = r
    · simp [upsertAgg, hp, lookupAgg, hrr]
    · simp [upsertAgg, hp, lookupAgg, ih]

theorem dailySum_upsertD (l : List (DKey × Int)) (k : DKey) (v : Int) (s e : DKey) :
    dailySum (upsertD l k v) s e =
      dailySum l s e +
        (if DKey.le s k ∧ DKey.le k e then v - (getDailyCacheTotal l k).getD 0 else 0) := by
  induction l with
  | nil =>
    simp only [upsertD, dailySum, getDailyCacheTotal, Option.getD_none]
    split <;> omega
  | cons p rest ih =>
    by_cases hp : p.1 = k
    · simp only [upsertD, hp, if_true, dailySum, getDailyCacheTotal, Option.getD_some]
      by_cases hin : DKey.le s k ∧ DKey.le k e
      · simp only [if_pos hin]; omega
      · simp only [if_neg hin]; omega
    · simp only [upsertD, hp, if_false, dailySum, getDailyCacheTotal, ih]
      omega

theorem mem_upsertD (l : List (DKey × Int)) (k : DKey) (v : Int) (p : DKey × Int)
    (hp : p ∈ upsertD l k v) : p ∈ l ∨ p = (k, v) := by
  induction l with
  | nil => simp [upsertD] at hp; simp [hp]
  | cons q rest ih =>
    by_cases hq : q.1 = k
    · simp only [upsertD, hq, if_true] at hp
      rcases List.mem_cons.1 hp with h | h
      · right; exact h
      · left; exact List.mem_cons_of_mem _ h
    · simp only [upsertD, hq, if_false] at hp
      rcases List.mem_cons.1 hp with h | h
      · left; exact h ▸ List.mem_cons_self _ _
      · rcases ih h with h' | h'
        · left; exact List.mem_cons_of_mem _ h'
        · right; exact h'

theorem updateAWD_daily (db : AggDB) (r : RKey) (s e : DKey) (d : Int) :
    (updateAggregateWithDelta db r s e d).daily = db.daily := by
  unfold updateAggregateWithDelta
  cases lookupAgg db.agg r <;> rfl

theorem updateAWD_lookup_self (db : AggDB) (r : RKey) (s e : DKey) (d : Int) :
    lookupAgg (updateAggregateWithDelta db r s e d).agg r =
      some (match lookupAgg db.agg r with
            | some c => c + d
            | none => dailySum db.daily s e) := by
  unfold updateAggregateWithDelta
  cases hc : lookupAgg db.agg r
  · simp [upsertAggregateCache, lookupAgg_upsertAgg_self]
  · simp [lookupAgg_upsertAgg_self]

theorem updateAWD_lookup_ne (db : AggDB) (r r' : RKey) (s e : DKey) (d : Int)
    (hne : r' ≠ r) :
    lookupAgg (updateAggregateWithDelta db r s e d).agg r' = lookupAgg db.agg r' := by
  unfold updateAggregateWithDelta
  cases hc : lookupAgg db.agg r
  · simp [upsertAggregateCache, lookupAgg_upsertAgg_ne _ _ _ _ hne]
  · simp [lookupAgg_upsertAgg_ne _ _ _ _ hne]

theorem week_ne_year (w : DKey) (y : Int) : RKey.week w ≠ RKey.year y := by
  intro h; exact RKey.noConfusion h

theorem updateAWD_lookup_hit (db : AggDB) (r : RKey) (s e : DKey) (d c : Int)
    (hc : lookupAgg db.agg r = some c) :
    lookupAgg (updateAggregateWithDelta db r s e d).agg r = some (c + d) := by
  unfold updateAggregateWithDelta
  rw [hc]
  exact lookupAgg_upsertAgg_self _ _ _

theorem updateAWD_lookup_miss (db : AggDB) (r : RKey) (s e : DKey) (d : Int)
    (hc : lookupAgg db.agg r = none) :
    lookupAgg (updateAggregateWithDelta db r s e d).agg r =
      some (dailySum db.daily s e) := by
  unfold updateAggregateWithDelta
  rw [hc]
  exact lookupAgg_upsertAgg_self _ _ _

theorem dailyChange_inv (db : AggDB) (k : DKey) (v : Int) (hk : ValidDate k)
    (hInv : AggInv db) : AggInv (dailyChange db k v) := by
  obtain ⟨hOK, hWF, hDW⟩ := hInv
  have hsum : ∀ s e : DKey, dailySum (upsertD db.daily k v) s e =
      dailySum db.daily s e +
        (if DKey.le s k ∧ DKey.le k e then v - (getDailyCacheTotal db.daily k).getD 0 else 0) :=
    fun s e => dailySum_upsertD db.daily k v s e
  have hdw1 : ∀ p ∈ upsertD db.daily k v, ValidDate p.1 := by
    intro p hp
    rcases mem_upsertD _ _ _ _ hp with h' | h'
    · exact hDW p h'
    · rw [h']; exact hk
  show AggInv (updateAggregateCachesForDate ⟨upsertD db.daily k v, db.agg⟩ k
    ((getDailyCacheTotal db.daily k).getD 0) v)
  unfold updateAggregateCachesForDate
  by_cases hd : v - (getDailyCacheTotal db.daily k).getD 0 = 0
  · rw [if_pos hd]
    refine ⟨?_, hWF, hdw1⟩
    intro r w hlk
    have hv := hOK r w hlk
    show w = dailySum (upsertD db.daily k v) (rangeOf r).1 (rangeOf r).2
    rw [hsum]
    split <;> omega
  · rw [if_neg hd]
    have hwkv : ValidDate (getStartOfWeek k) := valid_getStartOfWeek k
    have hwm : isMonday (getStartOfWeek k) := isMonday_getStartOfWeek k
    have hkin_week : DKey.le (getStartOfWeek k) k ∧
        DKey.le k (addDays (getStartOfWeek k) 6) :=
      (week_partition k (getStartOfWeek k) hk hwkv hwm).mpr rfl
    have hkin_year : DKey.le ⟨k.y, 1, 1⟩ k ∧ DKey.le k ⟨k.y, 12, 31⟩ :=
      (year_containment k k.y hk).mpr rfl
    set db1 : AggDB := ⟨upsertD db.daily k v, db.agg⟩ with hdb1
    set dm := v - (getDailyCacheTotal db.daily k).getD 0 with hdm
    set ws := getStartOfWeek k with hws
    set db2 := updateAggregateWithDelta db1 (RKey.week ws) ws (addDays ws 6) dm with hdb2
    set db3 := updateAggregateWithDelta db2 (RKey.year k.y) ⟨k.y, 1, 1⟩ ⟨k.y, 12, 31⟩ dm
      with hdb3
    have hd2 : db2.daily = db1.daily := by
      rw [hdb2]; exact updateAWD_daily _ _ _ _ _
    have hd3 : db3.daily = db1.daily := by
      rw [hdb3, updateAWD_daily]; exact hd2
    have hlkw : lookupAgg db2.agg (RKey.week ws) =
        some (dailySum (upsertD db.daily k v) ws (addDays ws 6) ) := by
      cases hc : lookupAgg db1.agg (RKey.week ws) with
      | none =>
        rw [hdb2, updateAWD_lookup_miss _ _ _ _ _ hc]
      | some c =>
        rw [hdb2, updateAWD_lookup_hit _ _ _ _ _ _ hc]
        have hv := hOK _ _ hc
        simp only [rangeOf] at hv
        rw [hsum, if_pos hkin_week]
        rw [hv]
    refine ⟨?_, ?_, ?_⟩
    · intro r w hlk
      show w = dailySum db3.daily (rangeOf r).1 (rangeOf r).2
      rw [hd3]
      by_cases hry : r = RKey.year k.y
      · subst hry
        cases hc : lookupAgg db2.agg (RKey.year k.y) with
        | none =>
          rw [hdb3, updateAWD_lookup_miss _ _ _ _ _ hc] at hlk
          simp only [Option.some.injEq] at hlk
          rw [← hlk, hd2]
          rfl
        | some c =>
          rw [hdb3, updateAWD_lookup_hit _ _ _ _ _ _ hc] at hlk
          simp only [Option.some.injEq] at hlk
          rw [hdb2, updateAWD_lookup_ne _ _ _ _ _ _
            (fun h => week_ne_year ws k.y h.symm)] at hc
          have hv := hOK _ _ hc
          simp only [rangeOf] at hv ⊢
          rw [hsum, if_pos hkin_year]
          omega
      · by_cases hrw : r = RKey.week ws
        · subst hrw
          rw [hdb3, updateAWD_lookup_ne _ _ _ _ _ _ (week_ne_year ws k.y)] at hlk
          rw [hlkw] at hlk
          simp only [Option.some.injEq] at hlk
          simp only [rangeOf]
          rw [← hlk]
        · rw [hdb3, updateAWD_lookup_ne _ _ _ _ _ _ hry] at hlk
          rw [hdb2, updateAWD_lookup_ne _ _ _ _ _ _ hrw] at hlk
          have hv := hOK _ _ hlk
          rw [hsum]
          cases r with
          | week w' =>
            have hwf' := hWF _ _ hlk
            rw [if_neg ?_]
            · omega
            · intro hin
              have heq : getStartOfWeek k = w' :=
                (week_partition k w' hk hwf'.1 hwf'.2).mp ⟨hin.1, hin.2⟩
              exact hrw (by rw [← heq, ← hws])
          | year y' =>
            rw [if_neg ?_]
            · omega
            · intro hin
              have heq : k.y = y' := (year_containment k y' hk).mp ⟨hin.1, hin.2⟩
              exact hry (by rw [heq])
    · intro w' wv hlk
      by_cases hw' : w' = ws
      · subst hw'; exact ⟨hwkv, hwm⟩
      · rw [hdb3, updateAWD_lookup_ne _ _ _ _ _ _ (week_ne_year w' k.y)] at hlk
        rw [hdb2, updateAWD_lookup_ne _ _ _ _ _ _
          (fun h => hw' (by injection h))] at hlk
        exact hWF _ _ hlk
    · intro p hp
      rw [hd3] at hp
      exact hdw1 p hp


theorem AggInv_empty : AggInv ⟨[], []⟩ := by
  refine ⟨?_, ?_, ?_⟩
  · intro r v h; simp [lookupAgg] at h
  · intro w v h; simp [lookupAgg] at h
  · intro p hp; simp at hp

theorem AggInv_fold (ops : List (DKey × Int)) (db : AggDB)
    (hops : ∀ p ∈ ops, ValidDate p.1) (h : AggInv db) :
    AggInv (ops.foldl (fun d p => dailyChange d p.1 p.2) db) := by
  induction ops generalizing db with
  | nil => exact h
  | cons p rest ih =>
    simp only [List.foldl_cons]
    exact ih _ (fun q hq => hops q (List.mem_cons_of_mem _ hq))
      (dailyChange_inv db p.1 p.2 (hops p (List.mem_cons_self _ _)) h)

theorem getAggregateTotalMs_snd (db : AggDB) (r : RKey) (hOK : aggOK db) :
    (getAggregateTotalMs db r (rangeOf r).1 (rangeOf r).2).2 =
      dailySum db.daily (rangeOf r).1 (rangeOf r).2 := by
  unfold getAggregateTotalMs
  cases hc : lookupAgg db.agg r with
  | none => rfl
  | some c => exact hOK _ _ hc

/-- **C6.** After any sequence of daily-cache total changes, each with
the correctly captured previous total and followed by
`updateAggregateCachesForDate`, reading the aggregate total of the week
range or the year range containing any date equals the full-rescan sum
of `total_time_ms` over the daily-cache entries of that range; a zero
delta is a no-op; and on a missing aggregate entry both the delta
update and the read recompute the range fresh by full summation (the
stored value is the rescan total, independent of the delta). -/
theorem aggregate_delta_correctness (ops : List (DKey × Int))
    (hops : ∀ p ∈ ops, ValidDate p.1) (k : DKey) (hk : ValidDate k) :
    (getAggregateTotalMs (ops.foldl (fun d p => dailyChange d p.1 p.2) ⟨[], []⟩)
        (RKey.week (getStartOfWeek k)) (getStartOfWeek k)
        (addDays (getStartOfWeek k) 6)).2 =
      dailySum (ops.foldl (fun d p => dailyChange d p.1 p.2) ⟨[], []⟩).daily
        (getStartOfWeek k) (addDays (getStartOfWeek k) 6) ∧
    (getAggregateTotalMs (ops.foldl (fun d p => dailyChange d p.1 p.2) ⟨[], []⟩)
        (RKey.year k.y) ⟨k.y, 1, 1⟩ ⟨k.y, 12, 31⟩).2 =
      dailySum (ops.foldl (fun d p => dailyChange d p.1 p.2) ⟨[], []⟩).daily
        ⟨k.y, 1, 1⟩ ⟨k.y, 12, 31⟩ ∧
    (∀ db : AggDB, ∀ prev : Int, updateAggregateCachesForDate db k prev prev = db) ∧
    (∀ (db : AggDB) (r : RKey) (s e : DKey) (d : Int), lookupAgg db.agg r = none →
        updateAggregateWithDelta db r s e d =
          ⟨db.daily, upsertAgg db.agg r (dailySum db.daily s e)⟩) ∧
    (∀ (db : AggDB) (r : RKey) (s e : DKey), lookupAgg db.agg r = none →
        getAggregateTotalMs db r s e =
          (⟨db.daily, upsertAgg db.agg r (dailySum db.daily s e)⟩,
            dailySum db.daily s e)) := by
  have hInv := AggInv_fold ops ⟨[], []⟩ hops AggInv_empty
  refine ⟨?_, ?_, ?_, ?_, ?_⟩
  · exact getAggregateTotalMs_snd _ (RKey.week (getStartOfWeek k)) hInv.1
  · exact getAggregateTotalMs_snd _ (RKey.year k.y) hInv.1
  · intro db prev
    unfold updateAggregateCachesForDate
    rw [if_pos (by omega : prev - prev = 0)]
  · intro db r s e d h
    unfold updateAggregateWithDelta
    rw [h]
    rfl
  · intro db r s e h
    unfold getAggregateTotalMs
    rw [h]
    rfl

/-- Witness for `aggregate_delta_correctness`: three changes over two
days (one day written twice) in the week of Monday 2024-02-26, queried
from 2024-03-03. -/
theorem aggregate_delta_correctness_witness :
    (∀ p ∈ ([(⟨2024, 2, 26⟩, 100), (⟨2024, 3, 1⟩, 250), (⟨2024, 2, 26⟩, 40)] :
        List (DKey × Int)), ValidDate p.1) ∧
    ValidDate ⟨2024, 3, 3⟩ ∧
    (getAggregateTotalMs
        (([(⟨2024, 2, 26⟩, 100), (⟨2024, 3, 1⟩, 250), (⟨2024, 2, 26⟩, 40)] :
          List (DKey × Int)).foldl (fun d p => dailyChange d p.1 p.2) ⟨[], []⟩)
        (RKey.week (getStartOfWeek ⟨2024, 3, 3⟩)) (getStartOfWeek ⟨2024, 3, 3⟩)
        (addDays (getStartOfWeek ⟨2024, 3, 3⟩) 6)).2 =
      dailySum
        (([(⟨2024, 2, 26⟩, 100), (⟨2024, 3, 1⟩, 250), (⟨2024, 2, 26⟩, 40)] :
          List (DKey × Int)).foldl (fun d p => dailyChange d p.1 p.2) ⟨[], []⟩).daily
        (getStartOfWeek ⟨2024, 3, 3⟩) (addDays (getStartOfWeek ⟨2024, 3, 3⟩) 6) :=
  ⟨by decide, by decide,
   (aggregate_delta_correctness
     [(⟨2024, 2, 26⟩, 100), (⟨2024, 3, 1⟩, 250), (⟨2024, 2, 26⟩, 40)]
     (by decide) ⟨2024, 3, 3⟩ (by decide)).1⟩

/-! ## Daily cache queries (`getDaySessions`, src/unnamed/part_006 lines 694–780)

The heartbeat `SELECT ... WHERE timestamp BETWEEN ? AND ? ORDER BY
timestamp ASC` result for the queried day is passed to the embedding as
the `rows` argument — the time-range selection is orthogonal to the
cache behaviour under study.  `today` is the value `getTodayDateKey()`
returns during the call. -/

/-- A row of `daily_sessions_cache` (the wall-clock `computed_at`
column is omitted: nothing reads it). -/
structure CacheRow where
  session_count : Nat
  total_time_ms : Int
  sessions_json : List Session
  last_heartbeat_id : String
deriving Repr, DecidableEq

/-- SELECT by primary key on daily_sessions_cache. -/
def lookupCache (l : List (DKey × CacheRow)) (k : DKey) : Option CacheRow :=
  match l with
  | [] => none
  | p :: rest => if p.1 = k then some p.2 else lookupCache rest k

/-- `INSERT OR REPLACE` on daily_sessions_cache. -/
def upsertCache (l : List (DKey × CacheRow)) (k : DKey) (v : CacheRow) :
    List (DKey × CacheRow) :=
  match l with
  | [] => [(k, v)]
  | p :: rest => if p.1 = k then (k, v) :: rest else p :: upsertCache rest k v

/-- The database state `getDaySessions` touches: the full daily cache
and the aggregate cache. -/
structure CacheDB where
  daily : List (DKey × CacheRow)
  agg : List (RKey × Int)
deriving Repr, DecidableEq

/-- Projection of the daily cache to its `total_time_ms` column, the
part the aggregate functions read. -/
def dailyTotals (l : List (DKey × CacheRow)) : List (DKey × Int) :=
  l.map (fun p => (p.1, p.2.total_time_ms))

/-- `getDaySessions` of src/unnamed/part_006: serve from the daily cache
on a hit; on a miss with no heartbeats return an empty summary without
writing; otherwise compute the day, capture `previousTotalMs`
(`?? 0`), `INSERT OR REPLACE` the daily-cache row, update the
aggregate caches, and return the computed summary.  `isToday` mirrors
line 699 of the source exactly: it is computed and never used —
in particular no branch prevents the write when `dateKey = today`. -/
def getDaySessions (today dateKey : DKey) (rows : List HB) (db : CacheDB) :
    CacheDB × DaySessionSummary :=
  let isToday := decide (dateKey = today)
  match lookupCache db.daily dateKey with
  | some cacheRow =>
      (db,
       { dateKey := dateKey
         sessionCount := cacheRow.session_count
         totalTimeMs := cacheRow.total_time_ms
         sessions := cacheRow.sessions_json
         totalCodingMs := (cacheRow.sessions_json.map Session.codingMs).sum
         totalPlanningMs := (cacheRow.sessions_json.map Session.planningMs).sum })
  | none =>
      match rows with
      | [] =>
          (db,
           { dateKey := dateKey, sessionCount := 0, totalTimeMs := 0,
             sessions := [], totalCodingMs := 0, totalPlanningMs := 0 })
      | r0 :: rest =>
          let sessions := computeSessionsFromHeartbeats (r0 :: rest)
          let totalCodingMs := (sessions.map Session.codingMs).sum
          let totalPlanningMs := (sessions.map Session.planningMs).sum
          let totalTimeMs := totalCodingMs + totalPlanningMs
          let lastHeartbeatId := ((r0 :: rest).getLast (List.cons_ne_nil r0 rest)).id
          let previousTotalMs := (getDailyCacheTotal (dailyTotals db.daily) dateKey).getD 0
          let daily1 := upsertCache db.daily dateKey
            ⟨sessions.length, totalTimeMs, sessions, lastHeartbeatId⟩
          let agg1 := (updateAggregateCachesForDate ⟨dailyTotals daily1, db.agg⟩
            dateKey previousTotalMs totalTimeMs).agg
          (⟨daily1, agg1⟩,
           { dateKey := dateKey, sessionCount := sessions.length,
             totalTimeMs := totalTimeMs, sessions := sessions,
             totalCodingMs := totalCodingMs, totalPlanningMs := totalPlanningMs })

theorem lookupCache_upsertCache_self (l : List (DKey × CacheRow)) (k : DKey)
    (v : CacheRow) : lookupCache (upsertCache l k v) k = some v := by
  induction l with
  | nil => simp [upsertCache, lookupCache]
  | cons p rest ih =>
    by_cases hp : p.1 = k
    · simp [upsertCache, hp, lookupCache]
    · simp [upsertCache, hp, lookupCache, ih]

/-- **C2.** Refuted as stated: querying today's dateKey through
`getDaySessions` does not leave the daily cache unchanged for that key.
`isToday` (line 699 of src/unnamed/part_006, likewise line 475 of
src/src/storage/index.ts) is computed but never read, and the
cache-miss path runs `INSERT OR REPLACE` unconditionally, so whenever
today's key has no cached row yet and the day has at least one
heartbeat, the call creates a daily-cache entry for today's key. -/
theorem getDaySessions_caches_today (today : DKey) (rows : List HB)
    (db : CacheDB) (hmiss : lookupCache db.daily today = none)
    (hne : rows ≠ []) :
    lookupCache (getDaySessions today today rows db).1.daily today ≠ none := by
  unfold getDaySessions
  rw [hmiss]
  cases rows with
  | nil => exact absurd rfl hne
  | cons r0 rest => simp [lookupCache_upsertCache_self]

/-- Witness for `getDaySessions_caches_today`: an empty database and a
single heartbeat on today's date. -/
theorem getDaySessions_caches_today_witness :
    lookupCache (([] : List (DKey × CacheRow))) ⟨2024, 5, 1⟩ = none ∧
    ([⟨"a", 100, some "p", false⟩] : List HB) ≠ [] ∧
    lookupCache (getDaySessions ⟨2024, 5, 1⟩ ⟨2024, 5, 1⟩
      [⟨"a", 100, some "p", false⟩] ⟨[], []⟩).1.daily ⟨2024, 5, 1⟩ ≠ none :=
  ⟨by decide, by decide,
   getDaySessions_caches_today ⟨2024, 5, 1⟩ [⟨"a", 100, some "p", false⟩]
     ⟨[], []⟩ (by decide) (by decide)⟩

/-! ## WakaTime import (`handleImportWakaTime`, src/src/panels/sessionsPanel.ts lines 279–354)

The import groups the payload's mapped heartbeats by date key (a JS
`Map`, so one entry per day, in first-appearance order) and then merges
day by day.  The grouped payload is the `days` list below.  Three
helpers the merge loop calls — `summarizeHeartbeatsForCache`,
`deleteHeartbeatsByDateKey`, `insertHeartbeat` (as a table write) and
`upsertDailySessionsCache` — are imported from storage modules whose
source is not part of this snapshot; they are modelled from the spec
(§4.3–§4.4 and the daily-cache entry shape) below.  The heartbeats
table is modelled as a list of rows tagged with their day key (the
key `getDateKeyFromTimestamp` derives from the row's timestamp), which
is how both the day-range delete and the day-range select address it. -/

/-- The summary shape the import derives per day (`sessions`,
`totalCodingMs`, `totalTimeMs`, `lastHeartbeatId` are the fields the
merge loop reads). -/
structure ImportSummary where
  sessions : List Session
  totalCodingMs : Int
  totalPlanningMs : Int
  totalTimeMs : Int
  lastHeartbeatId : String
deriving Repr, DecidableEq

/-- Modelled from the spec: `summarizeHeartbeatsForCache` runs the
batch segmentation over the day's heartbeats and packages the
daily-cache fields — the same computation `getDaySessions` performs on
a cache miss (§4.3: the daily cache is computed by the batch algorithm;
its entry stores the session list, `totalTimeMs` and
`lastHeartbeatId`). -/
def summarizeHeartbeatsForCache (rows : List HB) : ImportSummary :=
  let sessions := computeSessionsFromHeartbeats rows
  let totalCodingMs := (sessions.map Session.codingMs).sum
  let totalPlanningMs := (sessions.map Session.planningMs).sum
  { sessions := sessions
    totalCodingMs := totalCodingMs
    totalPlanningMs := totalPlanningMs
    totalTimeMs := totalCodingMs + totalPlanningMs
    lastHeartbeatId := ((rows.map HB.id).getLast?).getD "" }

/-- Modelled from the spec: `deleteHeartbeatsByDateKey` removes every
stored heartbeat of the day ("the day's stored heartbeats are replaced
wholesale"). -/
def deleteHeartbeatsByDateKey (l : List (DKey × HB)) (k : DKey) : List (DKey × HB) :=
  l.filter (fun p => !decide (p.1 = k))

/-- Modelled from the spec: `upsertDailySessionsCache` writes the
day's daily-cache row (`INSERT OR REPLACE` of
`{dateKey, sessionCount, totalTimeMs, sessionsBlob, lastHeartbeatId}`). -/
def upsertDailySessionsCache (l : List (DKey × CacheRow)) (k : DKey)
    (sessions : List Session) (totalTimeMs : Int) (lastHeartbeatId : String) :
    List (DKey × CacheRow) :=
  upsertCache l k ⟨sessions.length, totalTimeMs, sessions, lastHeartbeatId⟩

/-- The select feeding `getDaySessions`: the stored heartbeats of the
day, in table order. -/
def hbRows (l : List (DKey × HB)) (k : DKey) : List HB :=
  (l.filter (fun p => decide (p.1 = k))).map Prod.snd

/-- The whole database the import touches: heartbeats, daily cache,
aggregate cache. -/
structure ImportDB where
  hb : List (DKey × HB)
  daily : List (DKey × CacheRow)
  agg : List (RKey × Int)
deriving Repr, DecidableEq

/-- One iteration of the merge loop of `handleImportWakaTime` (lines
321–342): summarize the imported day, read the existing day through
`getDaySessions` (which can itself write on a cache miss), skip when
the imported coding total is not strictly greater, otherwise replace
the day's heartbeats, rewrite its daily-cache row and delta-update the
aggregates.  Returns the database, whether the day was replaced, and
how many heartbeats were inserted. -/
def importDayStep (today : DKey) (db : ImportDB) (day : DKey × List HB) :
    ImportDB × Bool × Nat :=
  let dateKey := day.1
  let heartbeats := day.2
  let importedSummary := summarizeHeartbeatsForCache heartbeats
  let read := getDaySessions today dateKey (hbRows db.hb dateKey) ⟨db.daily, db.agg⟩
  let existingSummary := read.2
  let db1 : ImportDB := ⟨db.hb, read.1.daily, read.1.agg⟩
  if importedSummary.totalCodingMs ≤ existingSummary.totalCodingMs then
    (db1, false, 0)
  else
    let hb1 := deleteHeartbeatsByDateKey db1.hb dateKey ++
      heartbeats.map (fun h => (dateKey, h))
    let daily1 := upsertDailySessionsCache db1.daily dateKey importedSummary.sessions
      importedSummary.totalTimeMs importedSummary.lastHeartbeatId
    let agg1 := (updateAggregateCachesForDate ⟨dailyTotals daily1, db1.agg⟩ dateKey
      existingSummary.totalTimeMs importedSummary.totalTimeMs).agg
    (⟨hb1, daily1, agg1⟩, true, heartbeats.length)

/-- The merge loop of `handleImportWakaTime` over the grouped payload,
accumulating `replacedDays`, `skippedDays` and `inserted`. -/
def handleImportWakaTime (today : DKey) (db : ImportDB)
    (days : List (DKey × List HB)) : ImportDB × Nat × Nat × Nat :=
  days.foldl (fun acc day =>
    let step := importDayStep today acc.1 day
    (step.1, acc.2.1 + (if step.2.1 then 1 else 0),
      acc.2.2.1 + (if step.2.1 then 0 else 1), acc.2.2.2 + step.2.2))
    (db, 0, 0, 0)

theorem getDaySessions_hit (today dateKey : DKey) (rows : List HB) (db : CacheDB)
    (row : CacheRow) (h : lookupCache db.daily dateKey = some row) :
    getDaySessions today dateKey rows db =
      (db,
       { dateKey := dateKey
         sessionCount := row.session_count
         totalTimeMs := row.total_time_ms
         sessions := row.sessions_json
         totalCodingMs := (row.sessions_json.map Session.codingMs).sum
         totalPlanningMs := (row.sessions_json.map Session.planningMs).sum }) := by
  unfold getDaySessions
  rw [h]

/-- **C7.** The per-day merge of the historical import: a day is
replaced exactly when the imported coding total is strictly greater
than the existing day's (as returned by the `getDaySessions`
comparison read); on a replace the day's stored heartbeats are deleted
and replaced wholesale, its daily-cache row rewritten from the imported
summary, and the aggregates delta-updated from the existing total to
the imported total; on a skip nothing is inserted and the stored
heartbeats are untouched — but the database is only guaranteed
unchanged when the day already had a daily-cache row, because the
comparison read itself caches an uncached day as a side effect (see the
counterexample). -/
theorem import_day_merge (today dateKey : DKey) (payload : List HB) (db : ImportDB) :
    ((importDayStep today db (dateKey, payload)).2.1 = true ↔
      (getDaySessions today dateKey (hbRows db.hb dateKey)
          ⟨db.daily, db.agg⟩).2.totalCodingMs <
        (summarizeHeartbeatsForCache payload).totalCodingMs) ∧
    ((summarizeHeartbeatsForCache payload).totalCodingMs ≤
        (getDaySessions today dateKey (hbRows db.hb dateKey)
          ⟨db.daily, db.agg⟩).2.totalCodingMs →
      (importDayStep today db (dateKey, payload)).1.hb = db.hb ∧
      (importDayStep today db (dateKey, payload)).2.2 = 0 ∧
      (importDayStep today db (dateKey, payload)).2.1 = false ∧
      (importDayStep today db (dateKey, payload)).1.daily =
        (getDaySessions today dateKey (hbRows db.hb dateKey)
          ⟨db.daily, db.agg⟩).1.daily ∧
      (importDayStep today db (dateKey, payload)).1.agg =
        (getDaySessions today dateKey (hbRows db.hb dateKey)
          ⟨db.daily, db.agg⟩).1.agg) ∧
    (∀ row, lookupCache db.daily dateKey = some row →
      (summarizeHeartbeatsForCache payload).totalCodingMs ≤
        (getDaySessions today dateKey (hbRows db.hb dateKey)
          ⟨db.daily, db.agg⟩).2.totalCodingMs →
      (importDayStep today db (dateKey, payload)).1 = db) ∧
    ((getDaySessions today dateKey (hbRows db.hb dateKey)
          ⟨db.daily, db.agg⟩).2.totalCodingMs <
        (summarizeHeartbeatsForCache payload).totalCodingMs →
      (importDayStep today db (dateKey, payload)).1.hb =
        deleteHeartbeatsByDateKey db.hb dateKey ++
          payload.map (fun h => (dateKey, h)) ∧
      (importDayStep today db (dateKey, payload)).1.daily =
        upsertDailySessionsCache
          (getDaySessions today dateKey (hbRows db.hb dateKey)
            ⟨db.daily, db.agg⟩).1.daily dateKey
          (summarizeHeartbeatsForCache payload).sessions
          (summarizeHeartbeatsForCache payload).totalTimeMs
          (summarizeHeartbeatsForCache payload).lastHeartbeatId ∧
      (importDayStep today db (dateKey, payload)).1.agg =
        (updateAggregateCachesForDate
          ⟨dailyTotals (upsertDailySessionsCache
            (getDaySessions today dateKey (hbRows db.hb dateKey)
              ⟨db.daily, db.agg⟩).1.daily dateKey
            (summarizeHeartbeatsForCache payload).sessions
            (summarizeHeartbeatsForCache payload).totalTimeMs
            (summarizeHeartbeatsForCache payload).lastHeartbeatId),
            (getDaySessions today dateKey (hbRows db.hb dateKey)
              ⟨db.daily, db.agg⟩).1.agg⟩ dateKey
          (getDaySessions today dateKey (hbRows db.hb dateKey)
            ⟨db.daily, db.agg⟩).2.totalTimeMs
          (summarizeHeartbeatsForCache payload).totalTimeMs).agg ∧
      (importDayStep today db (dateKey, payload)).2.2 = payload.length) := by
  by_cases hle : (summarizeHeartbeatsForCache payload).totalCodingMs ≤
      (getDaySessions today dateKey (hbRows db.hb dateKey)
        ⟨db.daily, db.agg⟩).2.totalCodingMs
  · have hstep : importDayStep today db (dateKey, payload) =
        (⟨db.hb,
          (getDaySessions today dateKey (hbRows db.hb dateKey)
            ⟨db.daily, db.agg⟩).1.daily,
          (getDaySessions today dateKey (hbRows db.hb dateKey)
            ⟨db.daily, db.agg⟩).1.agg⟩, false, 0) := by
      unfold importDayStep
      rw [if_pos hle]
    refine ⟨?_, ?_, ?_, ?_⟩
    · rw [hstep]
      constructor
      · intro h; simp at h
      · intro h; exact absurd h (by omega)
    · intro h
      rw [hstep]
      exact ⟨rfl, rfl, rfl, rfl, rfl⟩
    · intro row hrow h
      rw [hstep, getDaySessions_hit today dateKey _ _ row hrow]
    · intro h
      omega
  · have hstep : importDayStep today db (dateKey, payload) =
        (⟨deleteHeartbeatsByDateKey db.hb dateKey ++
            payload.map (fun h => (dateKey, h)),
          upsertDailySessionsCache
            (getDaySessions today dateKey (hbRows db.hb dateKey)
              ⟨db.daily, db.agg⟩).1.daily dateKey
            (summarizeHeartbeatsForCache payload).sessions
            (summarizeHeartbeatsForCache payload).totalTimeMs
            (summarizeHeartbeatsForCache payload).lastHeartbeatId,
          (updateAggregateCachesForDate
            ⟨dailyTotals (upsertDailySessionsCache
              (getDaySessions today dateKey (hbRows db.hb dateKey)
                ⟨db.daily, db.agg⟩).1.daily dateKey
              (summarizeHeartbeatsForCache payload).sessions
              (summarizeHeartbeatsForCache payload).totalTimeMs
              (summarizeHeartbeatsForCache payload).lastHeartbeatId),
              (getDaySessions today dateKey (hbRows db.hb dateKey)
                ⟨db.daily, db.agg⟩).1.agg⟩ dateKey
            (getDaySessions today dateKey (hbRows db.hb dateKey)
              ⟨db.daily, db.agg⟩).2.totalTimeMs
            (summarizeHeartbeatsForCache payload).totalTimeMs).agg⟩,
          true, payload.length) := by
      unfold importDayStep
      rw [if_neg hle]
    refine ⟨?_, ?_, ?_, ?_⟩
    · rw [hstep]
      constructor
      · intro h; omega
      · intro h; rfl
    · intro h
      omega
    · intro row hrow h
      omega
    · intro h
      rw [hstep]
      exact ⟨rfl, rfl, rfl, rfl⟩

/-- Counterexample to the original wording of the skip branch: for an
uncached historical day that has stored heartbeats, an import whose
coding total is not greater is skipped (heartbeats untouched, nothing
inserted) — yet the comparison read materializes the day's daily-cache
entry and updates the aggregate caches, so the daily cache and
aggregate totals do change. -/
theorem import_day_merge_counterexample :
    (importDayStep ⟨2024, 5, 2⟩
        ⟨[(⟨2024, 5, 1⟩, ⟨"a", 100, some "p", false⟩),
          (⟨2024, 5, 1⟩, ⟨"b", 60100, some "p", false⟩)], [], []⟩
        (⟨2024, 5, 1⟩, [⟨"x", 200, none, false⟩])).2.1 = false ∧
    (importDayStep ⟨2024, 5, 2⟩
        ⟨[(⟨2024, 5, 1⟩, ⟨"a", 100, some "p", false⟩),
          (⟨2024, 5, 1⟩, ⟨"b", 60100, some "p", false⟩)], [], []⟩
        (⟨2024, 5, 1⟩, [⟨"x", 200, none, false⟩])).1.hb =
      [(⟨2024, 5, 1⟩, ⟨"a", 100, some "p", false⟩),
       (⟨2024, 5, 1⟩, ⟨"b", 60100, some "p", false⟩)] ∧
    (importDayStep ⟨2024, 5, 2⟩
        ⟨[(⟨2024, 5, 1⟩, ⟨"a", 100, some "p", false⟩),
          (⟨2024, 5, 1⟩, ⟨"b", 60100, some "p", false⟩)], [], []⟩
        (⟨2024, 5, 1⟩, [⟨"x", 200, none, false⟩])).1.daily ≠ [] ∧
    (importDayStep ⟨2024, 5, 2⟩
        ⟨[(⟨2024, 5, 1⟩, ⟨"a", 100, some "p", false⟩),
          (⟨2024, 5, 1⟩, ⟨"b", 60100, some "p", false⟩)], [], []⟩
        (⟨2024, 5, 1⟩, [⟨"x", 200, none, false⟩])).1.agg ≠ [] := by
  decide

/-- Witness for `import_day_merge`: importing two coding heartbeats
into an empty database replaces the day. -/
theorem import_day_merge_witness :
    (importDayStep ⟨2024, 5, 2⟩ ⟨[], [], []⟩
      (⟨2024, 5, 1⟩, [⟨"a", 100, some "p", false⟩,
        ⟨"b", 60100, some "p", false⟩])).2.1 = true :=
  (import_day_merge ⟨2024, 5, 2⟩ ⟨2024, 5, 1⟩
    [⟨"a", 100, some "p", false⟩, ⟨"b", 60100, some "p", false⟩]
    ⟨[], [], []⟩).1.mpr (by decide)

theorem lookupCache_upsertCache_ne (l : List (DKey × CacheRow)) (k k' : DKey)
    (v : CacheRow) (hne : k' ≠ k) :
    lookupCache (upsertCache l k v) k' = lookupCache l k' := by
  have hrr : (k = k') = False := by
    apply eq_false; intro h; exact hne h.symm
  induction l with
  | nil => simp [upsertCache, lookupCache, hrr]
  | cons p rest ih =>
    by_cases hp : p.1 = k
    · simp [upsertCache, hp, lookupCache, hrr]
    · simp [upsertCache, hp, lookupCache, ih]

theorem getDaySessions_miss_nil (today dateKey : DKey) (db : CacheDB)
    (h : lookupCache db.daily dateKey = none) :
    getDaySessions today dateKey [] db =
      (db, { dateKey := dateKey, sessionCount := 0, totalTimeMs := 0,
             sessions := [], totalCodingMs := 0, totalPlanningMs := 0 }) := by
  unfold getDaySessions
  rw [h]

theorem getDaySessions_miss_cons_daily (today dateKey : DKey) (r0 : HB)
    (rest : List HB) (db : CacheDB) (h : lookupCache db.daily dateKey = none) :
    (getDaySessions today dateKey (r0 :: rest) db).1.daily =
      upsertCache db.daily dateKey
        ⟨(computeSessionsFromHeartbeats (r0 :: rest)).length,
         ((computeSessionsFromHeartbeats (r0 :: rest)).map Session.codingMs).sum +
           ((computeSessionsFromHeartbeats (r0 :: rest)).map Session.planningMs).sum,
         computeSessionsFromHeartbeats (r0 :: rest),
         ((r0 :: rest).getLast (List.cons_ne_nil r0 rest)).id⟩ := by
  unfold getDaySessions
  rw [h]

theorem getDaySessions_miss_cons_coding (today dateKey : DKey) (r0 : HB)
    (rest : List HB) (db : CacheDB) (h : lookupCache db.daily dateKey = none) :
    (getDaySessions today dateKey (r0 :: rest) db).2.totalCodingMs =
      ((computeSessionsFromHeartbeats (r0 :: rest)).map Session.codingMs).sum := by
  unfold getDaySessions
  rw [h]

theorem importDayStep_skip (today : DKey) (db : ImportDB) (day : DKey × List HB)
    (hle : (summarizeHeartbeatsForCache day.2).totalCodingMs ≤
      (getDaySessions today day.1 (hbRows db.hb day.1)
        ⟨db.daily, db.agg⟩).2.totalCodingMs) :
    importDayStep today db day =
      (⟨db.hb,
        (getDaySessions today day.1 (hbRows db.hb day.1) ⟨db.daily, db.agg⟩).1.daily,
        (getDaySessions today day.1 (hbRows db.hb day.1) ⟨db.daily, db.agg⟩).1.agg⟩,
       false, 0) := by
  unfold importDayStep
  rw [if_pos hle]

theorem importDayStep_replace_parts (today : DKey) (db : ImportDB)
    (day : DKey × List HB)
    (hgt : ¬ (summarizeHeartbeatsForCache day.2).totalCodingMs ≤
      (getDaySessions today day.1 (hbRows db.hb day.1)
        ⟨db.daily, db.agg⟩).2.totalCodingMs) :
    (importDayStep today db day).1.hb =
      deleteHeartbeatsByDateKey db.hb day.1 ++ day.2.map (fun h => (day.1, h)) ∧
    (importDayStep today db day).1.daily =
      upsertDailySessionsCache
        (getDaySessions today day.1 (hbRows db.hb day.1) ⟨db.daily, db.agg⟩).1.daily
        day.1 (summarizeHeartbeatsForCache day.2).sessions
        (summarizeHeartbeatsForCache day.2).totalTimeMs
        (summarizeHeartbeatsForCache day.2).lastHeartbeatId := by
  unfold importDayStep
  rw [if_neg hgt]
  exact ⟨rfl, rfl⟩

/-- Stability of a payload day: its daily-cache row (or, for a day
with no cached row and no stored heartbeats, the empty state) already
dominates the imported coding total, so re-importing it is a pure
skip. -/
def StableAt (today : DKey) (db : ImportDB) (d : DKey) (payload : List HB) : Prop :=
  (∃ row, lookupCache db.daily d = some row ∧
     (summarizeHeartbeatsForCache payload).totalCodingMs ≤
       (row.sessions_json.map Session.codingMs).sum) ∨
  (lookupCache db.daily d = none ∧ hbRows db.hb d = [] ∧
     (summarizeHeartbeatsForCache payload).totalCodingMs ≤ 0)

theorem importDayStep_of_stable (today : DKey) (db : ImportDB) (d : DKey)
    (payload : List HB) (h : StableAt today db d payload) :
    importDayStep today db (d, payload) = (db, false, 0) := by
  obtain ⟨row, hrow, hle⟩ | ⟨hnone, hrows, hle⟩ := h
  · have hread := getDaySessions_hit today d (hbRows db.hb d) ⟨db.daily, db.agg⟩ row hrow
    unfold importDayStep
    dsimp only
    rw [hread]
    dsimp only
    rw [if_pos hle]
  · have hread := getDaySessions_miss_nil today d ⟨db.daily, db.agg⟩ hnone
    unfold importDayStep
    dsimp only
    rw [hrows]
    rw [hread]
    dsimp only
    rw [if_pos hle]

theorem hbRows_delete_ne (l : List (DKey × HB)) (k d : DKey) (hne : d ≠ k) :
    hbRows (deleteHeartbeatsByDateKey l k) d = hbRows l d := by
  unfold hbRows deleteHeartbeatsByDateKey
  rw [List.filter_filter]
  congr 1
  apply List.filter_congr
  intro a _
  by_cases ha : a.1 = d
  · have hak : ¬ a.1 = k := by
      intro h
      exact hne (by rw [← ha]; exact h)
    simp [ha, hak]
    exact hne
  · simp [ha]

theorem hbRows_append (l1 l2 : List (DKey × HB)) (d : DKey) :
    hbRows (l1 ++ l2) d = hbRows l1 d ++ hbRows l2 d := by
  unfold hbRows
  rw [List.filter_append, List.map_append]

theorem hbRows_tagged_ne (payload : List HB) (k d : DKey) (hne : d ≠ k) :
    hbRows (payload.map (fun h => (k, h))) d = [] := by
  unfold hbRows
  induction payload with
  | nil => rfl
  | cons h rest ih =>
    have hkd : ¬ ((k, h).1 = d) := fun hh => hne hh.symm
    simp only [List.map_cons, List.filter_cons]
    rw [if_neg (by simpa using hkd)]
    exact ih

theorem importDayStep_frame (today : DKey) (db : ImportDB) (day : DKey × List HB)
    (d : DKey) (hne : d ≠ day.1) :
    lookupCache (importDayStep today db day).1.daily d = lookupCache db.daily d ∧
    hbRows (importDayStep today db day).1.hb d = hbRows db.hb d := by
  have hreadd : (getDaySessions today day.1 (hbRows db.hb day.1)
      ⟨db.daily, db.agg⟩).1.daily = db.daily ∨
      ∃ row, (getDaySessions today day.1 (hbRows db.hb day.1)
        ⟨db.daily, db.agg⟩).1.daily = upsertCache db.daily day.1 row := by
    cases hc : lookupCache db.daily day.1 with
    | some row =>
      left
      rw [getDaySessions_hit today day.1 _ _ row hc]
    | none =>
      cases hr : hbRows db.hb day.1 with
      | nil =>
        left
        rw [getDaySessions_miss_nil today day.1 _ hc]
      | cons r0 rest =>
        right
        exact ⟨_, getDaySessions_miss_cons_daily today day.1 r0 rest _ hc⟩
  have hlkread : lookupCache (getDaySessions today day.1 (hbRows db.hb day.1)
      ⟨db.daily, db.agg⟩).1.daily d = lookupCache db.daily d := by
    rcases hreadd with h | ⟨row, h⟩
    · rw [h]
    · rw [h, lookupCache_upsertCache_ne _ _ _ _ hne]
  by_cases hle : (summarizeHeartbeatsForCache day.2).totalCodingMs ≤
      (getDaySessions today day.1 (hbRows db.hb day.1)
        ⟨db.daily, db.agg⟩).2.totalCodingMs
  · rw [importDayStep_skip today db day hle]
    exact ⟨hlkread, rfl⟩
  · obtain ⟨hhb, hdaily⟩ := importDayStep_replace_parts today db day hle
    constructor
    · rw [hdaily]
      unfold upsertDailySessionsCache
      rw [lookupCache_upsertCache_ne _ _ _ _ hne]
      exact hlkread
    · rw [hhb, hbRows_append, hbRows_delete_ne _ _ _ hne,
        hbRows_tagged_ne _ _ _ hne, List.append_nil]

theorem importDayStep_stabilizes (today : DKey) (db : ImportDB)
    (d : DKey) (payload : List HB) :
    StableAt today (importDayStep today db (d, payload)).1 d payload := by
  by_cases hle : (summarizeHeartbeatsForCache payload).totalCodingMs ≤
      (getDaySessions today d (hbRows db.hb d)
        ⟨db.daily, db.agg⟩).2.totalCodingMs
  · rw [importDayStep_skip today db (d, payload) hle]
    dsimp only
    cases hc : lookupCache db.daily d with
    | some row =>
      left
      have hread := getDaySessions_hit today d (hbRows db.hb d) ⟨db.daily, db.agg⟩ row hc
      refine ⟨row, ?_, ?_⟩
      · rw [hread]
        exact hc
      · rw [hread] at hle
        exact hle
    | none =>
      cases hr : hbRows db.hb d with
      | nil =>
        right
        have hread := getDaySessions_miss_nil today d ⟨db.daily, db.agg⟩ hc
        rw [hr] at hle
        rw [hread] at hle
        refine ⟨?_, ?_, hle⟩
        · rw [hread]
          exact hc
        · exact hr
      | cons r0 rest =>
        left
        rw [hr] at hle
        rw [getDaySessions_miss_cons_coding today d r0 rest _ hc] at hle
        refine ⟨⟨(computeSessionsFromHeartbeats (r0 :: rest)).length,
          ((computeSessionsFromHeartbeats (r0 :: rest)).map Session.codingMs).sum +
            ((computeSessionsFromHeartbeats (r0 :: rest)).map Session.planningMs).sum,
          computeSessionsFromHeartbeats (r0 :: rest),
          ((r0 :: rest).getLast (List.cons_ne_nil r0 rest)).id⟩, ?_, ?_⟩
        · rw [getDaySessions_miss_cons_daily today d r0 rest _ hc]
          exact lookupCache_upsertCache_self _ _ _
        · exact hle
  · obtain ⟨hhb, hdaily⟩ :=
      importDayStep_replace_parts today db (d, payload) hle
    left
    refine ⟨⟨(summarizeHeartbeatsForCache payload).sessions.length,
      (summarizeHeartbeatsForCache payload).totalTimeMs,
      (summarizeHeartbeatsForCache payload).sessions,
      (summarizeHeartbeatsForCache payload).lastHeartbeatId⟩, ?_, ?_⟩
    · rw [hdaily]
      unfold upsertDailySessionsCache
      exact lookupCache_upsertCache_self _ _ _
    · exact le_refl _

/-- The database state after the merge loop (counters dropped). -/
def importStates (today : DKey) (db : ImportDB) (days : List (DKey × List HB)) : ImportDB :=
  days.foldl (fun s day => (importDayStep today s day).1) db

theorem handleImport_fst (today : DKey) (days : List (DKey × List HB)) :
    ∀ (db : ImportDB) (r s i : Nat),
      (days.foldl (fun acc day =>
        let step := importDayStep today acc.1 day
        (step.1, acc.2.1 + (if step.2.1 then 1 else 0),
          acc.2.2.1 + (if step.2.1 then 0 else 1), acc.2.2.2 + step.2.2))
        (db, r, s, i)).1 = importStates today db days := by
  induction days with
  | nil => intro db r s i; rfl
  | cons x rest ih =>
    intro db r s i
    simp only [importStates, List.foldl_cons]
    exact ih _ _ _ _

theorem stable_frame_run (today : DKey) (days : List (DKey × List HB))
    (d : DKey) (payload : List HB) :
    ∀ db : ImportDB, (∀ day' ∈ days, d ≠ day'.1) →
      StableAt today db d payload →
      StableAt today (importStates today db days) d payload := by
  induction days with
  | nil => intro db _ h; exact h
  | cons x rest ih =>
    intro db hne hst
    simp only [importStates, List.foldl_cons]
    have ⟨hfd, hfh⟩ := importDayStep_frame today db x d
      (hne x (List.mem_cons_self _ _))
    have hst' : StableAt today (importDayStep today db x).1 d payload := by
      unfold StableAt at hst ⊢
      rw [hfd, hfh]
      exact hst
    exact ih (importDayStep today db x).1
      (fun day' hday' => hne day' (List.mem_cons_of_mem _ hday')) hst'

theorem stable_after_run (today : DKey) (days : List (DKey × List HB)) :
    ∀ db : ImportDB, (days.map Prod.fst).Nodup →
      ∀ day ∈ days, StableAt today (importStates today db days) day.1 day.2 := by
  induction days with
  | nil => intro db _ day h; cases h
  | cons x rest ih =>
    intro db hnd day hday
    rw [List.map_cons] at hnd
    have hnd' := List.nodup_cons.1 hnd
    simp only [importStates, List.foldl_cons]
    rcases List.mem_cons.1 hday with rfl | hmem
    · have hstab := importDayStep_stabilizes today db day.1 day.2
      have hframe := stable_frame_run today rest day.1 day.2
        (importDayStep today db (day.1, day.2)).1
        (fun day' hday' => by
          intro hcontra
          exact hnd'.1 (by rw [hcontra]; exact List.mem_map_of_mem Prod.fst hday'))
        hstab
      simpa using hframe
    · exact ih (importDayStep today db x).1 hnd'.2 day hmem

theorem run_of_stable (today : DKey) (days : List (DKey × List HB)) :
    ∀ db : ImportDB, (∀ day ∈ days, StableAt today db day.1 day.2) →
      handleImportWakaTime today db days = (db, 0, days.length, 0) := by
  have aux : ∀ (ds : List (DKey × List HB)) (db : ImportDB),
      (∀ day ∈ ds, StableAt today db day.1 day.2) →
      ∀ r s i : Nat,
      (ds.foldl (fun acc day =>
        let step := importDayStep today acc.1 day
        (step.1, acc.2.1 + (if step.2.1 then 1 else 0),
          acc.2.2.1 + (if step.2.1 then 0 else 1), acc.2.2.2 + step.2.2))
        (db, r, s, i)) = (db, r, s + ds.length, i) := by
    intro ds
    induction ds with
    | nil => intro db _ r s i; rfl
    | cons x rest ih =>
      intro db hstable r s i
      have hx : importDayStep today db x = (db, false, 0) := by
        have := importDayStep_of_stable today db x.1 x.2
          (hstable x (List.mem_cons_self _ _))
        simpa using this
      have hlen : s + (x :: rest).length = s + 1 + rest.length := by
        simp only [List.length_cons]
        omega
      simp only [List.foldl_cons, hx, Bool.false_eq_true, if_false, Nat.add_zero]
      rw [hlen]
      exact ih db (fun day hday => hstable day (List.mem_cons_of_mem _ hday)) r (s + 1) i
  intro db h
  unfold handleImportWakaTime
  rw [aux days db h 0 0 0]
  simp

/-- **C8.** Import idempotence: running the same grouped payload a
second time leaves the database (heartbeats, daily cache, aggregate
cache) exactly as after the first run, and the second run replaces
zero days, skips every day and inserts zero heartbeats.  The payload
days carry distinct date keys, as produced by the grouping `Map`. -/
theorem import_idempotence (today : DKey) (db : ImportDB)
    (days : List (DKey × List HB)) (hnd : (days.map Prod.fst).Nodup) :
    handleImportWakaTime today (handleImportWakaTime today db days).1 days =
      ((handleImportWakaTime today db days).1, 0, days.length, 0) := by
  have hstate : (handleImportWakaTime today db days).1 = importStates today db days := by
    unfold handleImportWakaTime
    exact handleImport_fst today days db 0 0 0
  rw [hstate]
  exact run_of_stable today days (importStates today db days)
    (fun day hday => stable_after_run today days db hnd day hday)

/-- Witness for `import_idempotence`: a two-day payload over an empty
database. -/
theorem import_idempotence_witness :
    ((([(⟨2024, 5, 1⟩, [⟨"a", 100, some "p", false⟩]),
        (⟨2024, 5, 3⟩, [⟨"b", 200, none, true⟩])] :
          List (DKey × List HB)).map Prod.fst).Nodup) ∧
    handleImportWakaTime ⟨2024, 5, 4⟩
        (handleImportWakaTime ⟨2024, 5, 4⟩ ⟨[], [], []⟩
          [(⟨2024, 5, 1⟩, [⟨"a", 100, some "p", false⟩]),
           (⟨2024, 5, 3⟩, [⟨"b", 200, none, true⟩])]).1
        [(⟨2024, 5, 1⟩, [⟨"a", 100, some "p", false⟩]),
         (⟨2024, 5, 3⟩, [⟨"b", 200, none, true⟩])] =
      ((handleImportWakaTime ⟨2024, 5, 4⟩ ⟨[], [], []⟩
          [(⟨2024, 5, 1⟩, [⟨"a", 100, some "p", false⟩]),
           (⟨2024, 5, 3⟩, [⟨"b", 200, none, true⟩])]).1, 0, 2, 0) :=
  ⟨by decide,
   import_idempotence ⟨2024, 5, 4⟩ ⟨[], [], []⟩
     [(⟨2024, 5, 1⟩, [⟨"a", 100, some "p", false⟩]),
      (⟨2024, 5, 3⟩, [⟨"b", 200, none, true⟩])] (by decide)⟩
